import Mathlib

/-!
# ankiPDF: the render loops

A shallow embedding of `render` in `cmd/anki-pdf/main.go` and of the two page
loops of `main` in `main.go`.

* A Go `float64` value (coordinate, size, line height) is the rational it
  denotes.  Every `+`, `-`, `*` of the source is followed by the rounding `fl`
  taken as a parameter by the loops: `binary64` is `float64` arithmetic,
  `exactArith` is exact arithmetic.
* The calls made on the `gofpdf` document are recorded, in order, as a list of
  `Event`s.  `pdf.GetY()` is read back from the document, so the call
  `pdf.SetXY(x+margin, pdf.GetY())` is the event `setXYGetY (x+margin)`.
* A Go run-time panic (indexing the colour slice out of range) is `none`.
* The packages `config`, `layout`, `document` are not part of the sources at
  hand; the record types below list exactly the fields the render loops read.
* The text functions of the imported libraries are the fields of `TextLib`.
-/

set_option autoImplicit false

namespace AnkiPDF

/-! ## Data model -/

/-- Modelled from the spec: the declaration of the type of `l.PageSize` and
`l.CardSize` (package `layout`) is not among the sources; the spec calls it
`Dimensions`, a rectangle with `W` and `H`, the two fields the loops read. -/
structure Dimensions where
  W : ℚ
  H : ℚ

/-- Modelled from the spec: the declaration of `layout.Orientation` is not
among the sources; these are the two values used as keys of `orientations`. -/
inductive Orientation
  | Portrait
  | Landscape

/-- Modelled from the spec: the declaration of `layout.Layout` is not among
the sources; these are the fields the render loops read (`l.O`, `l.PageSize`,
`l.CardSize`). -/
structure Layout where
  O : Orientation
  PageSize : Dimensions
  CardSize : Dimensions

/-- Modelled from the spec: the declaration of the text format of package
`config` (the type of `c.Front.Layout`, `c.Back.Layout` and of the values of
`c.FieldLayouts`) is not among the sources; these are the five fields the
loops read, the spec's `Style` with a colour of any number of components. -/
structure FieldLayout where
  Font : String
  Size : ℚ
  Height : ℚ
  Align : String
  Color : List Int

/-- Modelled from the spec: the declaration of the type of `c.Front` and
`c.Back` is not among the sources; a face has a field list and a default
format. -/
structure Face where
  Fields : List String
  Layout : FieldLayout

/-- Modelled from the spec: the declaration of `config.Config` is not among
the sources; these are the fields the render loops read.  The Go map
`FieldLayouts` is an association list, read through `Config.fieldLayout`. -/
structure Config where
  Margin : ℚ
  Front : Face
  Back : Face
  FieldLayouts : List (String × FieldLayout)
  StripHTML : Bool
  TrimSpace : Bool

/-- Modelled from the spec: the declaration of the card type of package
`document` is not among the sources; a card has the two Go maps `Front` and
`Back` from field name to raw text, here association lists. -/
structure Card where
  Front : List (String × String)
  Back : List (String × String)

/-- A row of cards. -/
abbrev Row := List Card

/-- A page: rows of cards. -/
abbrev Page := List Row

/-- Modelled from the spec: the declaration of `document.Document` is not
among the sources; the loops range over its pages, their rows and the cards
of a row. -/
abbrev Document := List Page

/-- The zero value of the format type, returned by a Go map for a missing key. -/
def zeroLayout : FieldLayout :=
  { Font := "", Size := 0, Height := 0, Align := "", Color := [] }

/-- The map read `c.FieldLayouts[field]`. -/
def Config.fieldLayout (c : Config) (field : String) : FieldLayout :=
  (c.FieldLayouts.lookup field).getD zeroLayout

/-- The map read `card.Front[field]`. -/
def Card.front (card : Card) (field : String) : String :=
  (card.Front.lookup field).getD ""

/-- The map read `card.Back[field]`. -/
def Card.back (card : Card) (field : String) : String :=
  (card.Back.lookup field).getD ""

/-! ## Calls on the PDF document -/

/-- One call on the `gofpdf` document, with its arguments. -/
inductive Event
  | addPage
  | setDrawColor (r g b : Int)
  | rect (x y w h : ℚ) (style : String)
  | setXY (x y : ℚ)
  | setXYGetY (x : ℚ)
  | ln (h : ℚ)
  | addUTF8Font (family style file : String)
  | setFont (family style : String) (size : ℚ)
  | setTextColor (r g b : Int)
  | multiCell (w h : ℚ) (txt border align : String) (fill : Bool)
  deriving DecidableEq

/-! ## Text functions -/

/-- The text functions of the imported libraries, taken as parameters:
`strip.StripTags`, `html.UnescapeString` and
`bluemonday.StrictPolicy().Sanitize`. -/
structure TextLib where
  stripTags : String → String
  unescapeString : String → String
  strictSanitize : String → String

/-- The class `\s` of Go regular expressions: tab, newline, form feed,
carriage return and space. -/
def isSpace (ch : Char) : Bool :=
  ch = '\t' || ch = '\n' || ch = '\x0c' || ch = '\r' || ch = ' '

/-- Replacement of every maximal run of `\s` characters by one space; the
flag tells whether the previous character belonged to a run. -/
def replaceSpaceRuns : Bool → List Char → List Char
  | _, [] => []
  | inRun, ch :: cs =>
    if isSpace ch then
      if inRun then replaceSpaceRuns true cs else ' ' :: replaceSpaceRuns true cs
    else ch :: replaceSpaceRuns false cs

/-- The call `space.ReplaceAllString(txt, " ")` with `space` compiled from
`\s+`. -/
def spaceReplaceAll (txt : String) : String :=
  ⟨replaceSpaceRuns false txt.data⟩

/-- The text handed to `MultiCell` by `render` (lines 118-125 and 174-181 of
`cmd/anki-pdf/main.go`). -/
def sanitize (lib : TextLib) (c : Config) (txt : String) : String :=
  let txt := if c.StripHTML then lib.stripTags txt else txt
  let txt := if c.TrimSpace then spaceReplaceAll txt else txt
  lib.unescapeString txt

/-- The text handed to `MultiCell` by the loops of `main.go` (lines 102-108
and 160-166): no entity decoding. -/
def sanitizeMain (lib : TextLib) (c : Config) (txt : String) : String :=
  let txt := if c.StripHTML then lib.strictSanitize txt else txt
  if c.TrimSpace then spaceReplaceAll txt else txt

/-! ## The current style -/

/-- The local variables `font`, `size`, `height`, `align`, `color`. -/
structure Style where
  font : String
  size : ℚ
  height : ℚ
  align : String
  color : List Int
  deriving DecidableEq

/-- The assignments under the comment `default layout`. -/
def defaultStyle (d : FieldLayout) : Style :=
  { font := d.Font, size := d.Size, height := d.Height, align := d.Align, color := d.Color }

/-- The five conditional assignments under `optional field fromatting from
config`, for the format `o` found for the field. -/
def applyOverride (o : FieldLayout) (st : Style) : Style :=
  { size := if o.Size > 0 then o.Size else st.size
    height := if o.Height > 0 then o.Height else st.height
    font := if o.Font.length > 0 then o.Font else st.font
    align := if o.Align.length > 0 then o.Align else st.align
    color := if o.Color.length > 0 then o.Color else st.color }

/-- The three reads `color[0], color[1], color[2]`; `none` is the index
panic. -/
def rgb (color : List Int) : Option (Int × Int × Int) :=
  match color[0]?, color[1]?, color[2]? with
  | some r, some g, some b => some (r, g, b)
  | _, _, _ => none

/-! ## Arithmetic

Every `+`, `-` and `*` of the source is a `float64` operation: its result is
the exact result rounded to a `float64`.  The loops take the rounding `fl` as
a parameter; `binary64` is the rounding of the machine, `exactArith` is no
rounding at all. -/

/-- Exact arithmetic: no rounding. -/
def exactArith (q : ℚ) : ℚ := q

/-- The natural number nearest to `n / d`, ties to the even one. -/
def roundHalfEven (n d : ℕ) : ℕ :=
  if 2 * (n % d) < d then n / d
  else if d < 2 * (n % d) then n / d + 1
  else if (n / d) % 2 = 0 then n / d else n / d + 1

/-- The number of binary digits of `n`, counted with at most `fuel` halvings. -/
def bitLength : ℕ → ℕ → ℕ
  | 0, _ => 0
  | fuel + 1, n => if n = 0 then 0 else bitLength fuel (n / 2) + 1

/-- The `float64` nearest to the positive rational `n / d` (IEEE 754 binary64,
round to nearest, ties to even): the exponent `e` is chosen with
`2^52 ≤ (n / d) / 2^e < 2^53`, not below `-1074`, and the quotient is rounded
to an integer multiple of `2^e`.  Overflow to infinity is not modelled. -/
def binary64Abs (n d : ℕ) : ℚ :=
  let e0 : ℤ := (bitLength n n : ℤ) - (bitLength d d : ℤ) - 52
  let low : Bool :=
    if 0 ≤ e0 then n < 2 ^ 52 * (d * 2 ^ e0.toNat) else n * 2 ^ (-e0).toNat < 2 ^ 52 * d
  let e : ℤ := max (if low then e0 - 1 else e0) (-1074)
  if 0 ≤ e then ((roundHalfEven n (d * 2 ^ e.toNat) * 2 ^ e.toNat : ℕ) : ℚ)
  else mkRat (roundHalfEven (n * 2 ^ (-e).toNat) d) (2 ^ (-e).toNat)

/-- The rounding of `float64` arithmetic: the `float64` nearest to `q`. -/
def binary64 (q : ℚ) : ℚ :=
  if q = 0 then 0
  else if 0 < q then binary64Abs q.num.natAbs q.den
  else - binary64Abs q.num.natAbs q.den

/-! ## The loops -/

/-- A `for ... range` loop whose body produces calls and updates the current
style, with a coordinate updated by `next` at the end of each iteration. -/
def loop {α : Type} (next : ℚ → ℚ) (body : ℚ → Style → α → Option (Style × List Event)) :
    ℚ → Style → List α → Option (Style × List Event)
  | _, st, [] => some (st, [])
  | p, st, a :: as =>
    match body p st a with
    | none => none
    | some (st1, e1) =>
      match loop next body (next p) st1 as with
      | none => none
      | some (st2, e2) => some (st2, e1 ++ e2)

/-- The part of a field iteration after the `break` test: style update,
`set formatting` and `render`, for the raw text `raw` of the field. -/
def drawField (fl : ℚ → ℚ) (san : String → String) (c : Config) (l : Layout) (x : ℚ)
    (raw : String) (st : Style) (field : String) : Option (Style × List Event) :=
  let st1 := applyOverride (c.fieldLayout field) st
  match rgb st1.color with
  | none => none
  | some (r, g, b) =>
    some (st1,
      [Event.addUTF8Font st1.font "" (st1.font ++ ".ttf"),
       Event.setFont st1.font "" st1.size,
       Event.setTextColor r g b,
       Event.multiCell (fl (l.CardSize.W - fl (2 * c.Margin))) st1.height (san raw) "0"
         st1.align false,
       Event.setXYGetY (fl (x + c.Margin))])

/-- One iteration of `for _, field := range c.Front.Fields`. -/
def frontField (fl : ℚ → ℚ) (san : String → String) (c : Config) (l : Layout) (x : ℚ)
    (card : Card) (st : Style) (field : String) : Option (Style × List Event) :=
  if field = "break" then
    some (st, [Event.ln (c.fieldLayout "break").Height, Event.setXYGetY (fl (x + c.Margin))])
  else drawField fl san c l x (card.front field) st field

/-- One iteration of `for _, field := range c.Back.Fields`. -/
def backField (fl : ℚ → ℚ) (san : String → String) (c : Config) (l : Layout) (x : ℚ)
    (card : Card) (st : Style) (field : String) : Option (Style × List Event) :=
  drawField fl san c l x (card.back field) st field

/-- The three calls that open a card: outline and cursor. -/
def cardHead (fl : ℚ → ℚ) (c : Config) (l : Layout) (x y : ℚ) : List Event :=
  [Event.setDrawColor 220 220 220,
   Event.rect x y l.CardSize.W l.CardSize.H "D",
   Event.setXY (fl (x + c.Margin)) (fl (y + c.Margin))]

/-- One iteration of `for _, card := range row` of a front face, without the
final `x += w`. -/
def frontCard (fl : ℚ → ℚ) (san : String → String) (c : Config) (l : Layout) (y x : ℚ)
    (st : Style) (card : Card) : Option (Style × List Event) :=
  match loop id (fun _ s f => frontField fl san c l x card s f) 0 st c.Front.Fields with
  | none => none
  | some (st1, e) => some (st1, cardHead fl c l x y ++ e)

/-- One iteration of `for _, card := range row` of a back face, without the
final `x -= w`. -/
def backCard (fl : ℚ → ℚ) (san : String → String) (c : Config) (l : Layout) (y x : ℚ)
    (st : Style) (card : Card) : Option (Style × List Event) :=
  match loop id (fun _ s f => backField fl san c l x card s f) 0 st c.Back.Fields with
  | none => none
  | some (st1, e) => some (st1, cardHead fl c l x y ++ e)

/-- One iteration of `for _, row := range page` of a front face: `x = 0`,
then the cards with `x += w`. -/
def frontRow (fl : ℚ → ℚ) (san : String → String) (c : Config) (l : Layout) (y : ℚ)
    (st : Style) (row : Row) : Option (Style × List Event) :=
  loop (fun x => fl (x + l.CardSize.W)) (frontCard fl san c l y) 0 st row

/-- One iteration of `for _, row := range page` of a back face:
`x = l.PageSize.W - w`, then the cards with `x -= w`. -/
def backRow (fl : ℚ → ℚ) (san : String → String) (c : Config) (l : Layout) (y : ℚ)
    (st : Style) (row : Row) : Option (Style × List Event) :=
  loop (fun x => fl (x - l.CardSize.W)) (backCard fl san c l y)
    (fl (l.PageSize.W - l.CardSize.W)) st row

/-- The rows of a front face: `y = 0`, then the rows with `y += h`. -/
def frontRows (fl : ℚ → ℚ) (san : String → String) (c : Config) (l : Layout) (st : Style)
    (page : Page) : Option (Style × List Event) :=
  loop (fun y => fl (y + l.CardSize.H)) (frontRow fl san c l) 0 st page

/-- The rows of a back face: `y = 0`, then the rows with `y += h`. -/
def backRows (fl : ℚ → ℚ) (san : String → String) (c : Config) (l : Layout) (st : Style)
    (page : Page) : Option (Style × List Event) :=
  loop (fun y => fl (y + l.CardSize.H)) (backRow fl san c l) 0 st page

/-- The page loop of `render` in `cmd/anki-pdf/main.go` (lines 74-189): for
each page a front sheet, then a back sheet, each started from the default
style of its face. -/
def render (fl : ℚ → ℚ) (lib : TextLib) (c : Config) (l : Layout) :
    Document → Option (List Event)
  | [] => some []
  | page :: rest =>
    match frontRows fl (sanitize lib c) c l (defaultStyle c.Front.Layout) page with
    | none => none
    | some (_, eF) =>
      match backRows fl (sanitize lib c) c l (defaultStyle c.Back.Layout) page with
      | none => none
      | some (_, eB) =>
        match render fl lib c l rest with
        | none => none
        | some e => some (Event.addPage :: (eF ++ Event.addPage :: (eB ++ e)))

/-- One iteration of a page loop of `main.go`: `pdf.AddPage()`, `y = 0`, then
the rows of the page. -/
def mainPage (rows : Style → Page → Option (Style × List Event)) (st : Style) (page : Page) :
    Option (Style × List Event) :=
  match rows st page with
  | none => none
  | some (st1, e) => some (st1, Event.addPage :: e)

/-- The loop `render front pages` of `main.go` (lines 65-116): the current
style is the one left by the previous page. -/
def mainFrontPages (fl : ℚ → ℚ) (lib : TextLib) (c : Config) (l : Layout) (st : Style)
    (d : Document) : Option (Style × List Event) :=
  loop id (fun _ s page => mainPage (frontRows fl (sanitizeMain lib c) c l) s page) 0 st d

/-- The loop `render back pages` of `main.go` (lines 126-175). -/
def mainBackPages (fl : ℚ → ℚ) (lib : TextLib) (c : Config) (l : Layout) (st : Style)
    (d : Document) : Option (Style × List Event) :=
  loop id (fun _ s page => mainPage (backRows fl (sanitizeMain lib c) c l) s page) 0 st d

/-- The two page loops of `main` in `main.go`, one after the other. -/
def mainLoops (fl : ℚ → ℚ) (lib : TextLib) (c : Config) (l : Layout) (d : Document) :
    Option (List Event) :=
  match mainFrontPages fl lib c l (defaultStyle c.Front.Layout) d with
  | none => none
  | some (_, eF) =>
    match mainBackPages fl lib c l (defaultStyle c.Back.Layout) d with
    | none => none
    | some (_, eB) => some (eF ++ eB)

/-! ## Reading a list of calls -/

/-- Cutting a list of calls at the calls recognised by `sep`: the calls before
the first cut, and for every cut its datum and the calls up to the next cut. -/
def segments {β : Type} (sep : Event → Option β) :
    List Event → List Event × List (β × List Event)
  | [] => ([], [])
  | e :: es =>
    match sep e with
    | some b => ([], (b, (segments sep es).1) :: (segments sep es).2)
    | none => (e :: (segments sep es).1, (segments sep es).2)

/-- Recognises `pdf.AddPage()`. -/
def isAddPage : Event → Option Unit
  | Event.addPage => some ()
  | _ => none

/-- The sheets of a list of calls: the calls that follow each `AddPage`. -/
def sheets (evs : List Event) : List (List Event) :=
  ((segments isAddPage evs).2).map Prod.snd

/-- A rectangle on a sheet: left edge, top edge, width, height. -/
structure Box where
  x : ℚ
  y : ℚ
  w : ℚ
  h : ℚ
  deriving DecidableEq

/-- Recognises `pdf.Rect(x, y, w, h, "D")` and gives its rectangle. -/
def isRect : Event → Option Box
  | Event.rect x y w h _ => some ⟨x, y, w, h⟩
  | _ => none

/-- The text of a `MultiCell` call. -/
def textOf : Event → Option String
  | Event.multiCell _ _ txt _ _ _ => some txt
  | _ => none

/-- The texts drawn by a list of calls, in order. -/
def texts (evs : List Event) : List String :=
  evs.filterMap textOf

/-- The size of a `SetFont` call. -/
def fontSizeOf : Event → Option ℚ
  | Event.setFont _ _ size => some size
  | _ => none

/-- The font sizes selected by a list of calls, in order: one per drawn field. -/
def fontSizes (evs : List Event) : List ℚ :=
  evs.filterMap fontSizeOf

/-- The line height of a `MultiCell` call. -/
def lineHeightOf : Event → Option ℚ
  | Event.multiCell _ h _ _ _ _ => some h
  | _ => none

/-- The line heights used by a list of calls, in order: one per drawn field. -/
def lineHeights (evs : List Event) : List ℚ :=
  evs.filterMap lineHeightOf

/-- An outlined cell of a sheet: its rectangle and the texts drawn after the
outline and before the next one. -/
structure Cell where
  box : Box
  texts : List String
  deriving DecidableEq

/-- The outlined cells of a sheet, in drawing order. -/
def cells (evs : List Event) : List Cell :=
  ((segments isRect evs).2).map (fun p => ⟨p.1, texts p.2⟩)

/-- Consecutive pairs of a list: `[a, b, c, d]` gives `[(a, b), (c, d)]`. -/
def pairUp {α : Type} : List α → List (α × α)
  | a :: b :: rest => (a, b) :: pairUp rest
  | _ => []

/-! ## What the specification expects -/

/-- The texts of the front face of a card: the configured front fields other
than `break`, each passed through `san`. -/
def frontTexts (san : String → String) (c : Config) (card : Card) : List String :=
  (c.Front.Fields.filter (fun f => f ≠ "break")).map (fun f => san (card.front f))

/-- The texts of the back face of a card: every configured back field,
passed through `san`. -/
def backTexts (san : String → String) (c : Config) (card : Card) : List String :=
  c.Back.Fields.map (fun f => san (card.back f))

/-- The front slot of column `i` in row `j`. -/
def frontBox (l : Layout) (j i : ℕ) : Box :=
  ⟨i * l.CardSize.W, j * l.CardSize.H, l.CardSize.W, l.CardSize.H⟩

/-- The back slot of column `i` in row `j`: counted from the right edge of
the page. -/
def backBox (l : Layout) (j i : ℕ) : Box :=
  ⟨l.PageSize.W - l.CardSize.W - i * l.CardSize.W, j * l.CardSize.H,
    l.CardSize.W, l.CardSize.H⟩

/-- Reflection of a rectangle about the vertical centre line of the page:
the new left edge is the page width minus the old right edge. -/
def mirror (l : Layout) (b : Box) : Box :=
  ⟨l.PageSize.W - (b.x + b.w), b.y, b.w, b.h⟩

/-- The cells expected on the front sheet of a page. -/
def frontCells (san : String → String) (c : Config) (l : Layout) (page : Page) : List Cell :=
  page.enum.flatMap (fun jr =>
    jr.2.enum.map (fun ic => ⟨frontBox l jr.1 ic.1, frontTexts san c ic.2⟩))

/-- The cells expected on the back sheet of a page. -/
def backCells (san : String → String) (c : Config) (l : Layout) (page : Page) : List Cell :=
  page.enum.flatMap (fun jr =>
    jr.2.enum.map (fun ic => ⟨backBox l jr.1 ic.1, backTexts san c ic.2⟩))

/-- The left edge of the front card of column `i` as the loop computes it:
`i` times `x += w` from `x = 0`. -/
def frontX (fl : ℚ → ℚ) (l : Layout) (i : ℕ) : ℚ :=
  Nat.iterate (fun x => fl (x + l.CardSize.W)) i 0

/-- The left edge of the back card of column `i` as the loop computes it:
`i` times `x -= w` from `x = l.PageSize.W - w`. -/
def backX (fl : ℚ → ℚ) (l : Layout) (i : ℕ) : ℚ :=
  Nat.iterate (fun x => fl (x - l.CardSize.W)) i (fl (l.PageSize.W - l.CardSize.W))

/-- The top edge of row `j` as the loop computes it: `j` times `y += h` from
`y = 0`. -/
def rowY (fl : ℚ → ℚ) (l : Layout) (j : ℕ) : ℚ :=
  Nat.iterate (fun y => fl (y + l.CardSize.H)) j 0

/-- The cells of the front sheet of a page under the rounding `fl`. -/
def frontCellsAt (fl : ℚ → ℚ) (san : String → String) (c : Config) (l : Layout)
    (page : Page) : List Cell :=
  page.enum.flatMap (fun jr =>
    jr.2.enum.map (fun ic =>
      ⟨⟨frontX fl l ic.1, rowY fl l jr.1, l.CardSize.W, l.CardSize.H⟩, frontTexts san c ic.2⟩))

/-- The cells of the back sheet of a page under the rounding `fl`. -/
def backCellsAt (fl : ℚ → ℚ) (san : String → String) (c : Config) (l : Layout)
    (page : Page) : List Cell :=
  page.enum.flatMap (fun jr =>
    jr.2.enum.map (fun ic =>
      ⟨⟨backX fl l ic.1, rowY fl l jr.1, l.CardSize.W, l.CardSize.H⟩, backTexts san c ic.2⟩))

/-- The running size of the cascade: the size in effect after field `f`. -/
def nextSize (c : Config) (s : ℚ) (f : String) : ℚ :=
  if (c.fieldLayout f).Size > 0 then (c.fieldLayout f).Size else s

/-- The sizes with which a sequence of drawn fields is set, starting from the
size `s`: a positive override replaces the size and stays in effect until the
next positive override. -/
def cascadeSizes (c : Config) : ℚ → List String → List ℚ
  | _, [] => []
  | s, f :: fs => nextSize c s f :: cascadeSizes c (nextSize c s f) fs

/-- The fields drawn on the front face of a page, card after card. -/
def frontDrawn (c : Config) (page : Page) : List String :=
  page.flatMap (fun row => row.flatMap (fun _ => c.Front.Fields.filter (fun f => f ≠ "break")))

/-- The fields drawn on the back face of a page, card after card. -/
def backDrawn (c : Config) (page : Page) : List String :=
  page.flatMap (fun row => row.flatMap (fun _ => c.Back.Fields))

/-- A configuration is well formed for colours when both default colours have
at least three components and every override colour is empty or has at least
three components. -/
def ColourOK (c : Config) : Prop :=
  3 ≤ c.Front.Layout.Color.length ∧ 3 ≤ c.Back.Layout.Color.length ∧
    ∀ p ∈ c.FieldLayouts, p.2.Color = [] ∨ 3 ≤ p.2.Color.length

/-- The three stages of the text pipeline as the specification words them:
tags stripped if `StripHTML`, then whitespace runs collapsed if `TrimSpace`,
then entities decoded, always and last. -/
def pipeline (lib : TextLib) (c : Config) (t : String) : String :=
  lib.unescapeString
    ((fun u => if c.TrimSpace then spaceReplaceAll u else u)
      ((fun u => if c.StripHTML then lib.stripTags u else u) t))

/-- The cells of the two faces of a page, card by card: the front cell of a
card paired with the cell that holds the same card on the back, whose
rectangle is the mirror image of the front rectangle. -/
def facePairs (san : String → String) (c : Config) (l : Layout) (page : Page) :
    List (Cell × Cell) :=
  page.enum.flatMap (fun jr =>
    jr.2.enum.map (fun ic =>
      (⟨frontBox l jr.1 ic.1, frontTexts san c ic.2⟩,
        ⟨mirror l (frontBox l jr.1 ic.1), backTexts san c ic.2⟩)))

/-- The sizes expected on a front face with field list `[B, A]`, where only
`A` overrides the size, with `s`: the first card sets `B` in the default size
`dflt`, everything after it is set in `s`. -/
def carriedSizes (dflt s : ℚ) : List Card → List ℚ
  | [] => []
  | _ :: others => [dflt, s] ++ others.flatMap (fun _ => [s, s])

/-! ## Sample data -/

/-- Modelled from the spec: tag stripping is library code outside the
sources; the spec describes it as tag removal that retains text content and
entities.  This is the removal of every span from `<` to the next `>`, what
`strip.StripTags` and the strict `bluemonday` policy compute on plain text
with simple tags.  Used for sample runs only. -/
def dropTags : Bool → List Char → List Char
  | _, [] => []
  | inTag, ch :: cs =>
    if inTag then (if ch = '>' then dropTags false cs else dropTags true cs)
    else if ch = '<' then dropTags true cs else ch :: dropTags false cs

/-- The references decoded by `unescapeBasic`: the name after `&`, and the
character it stands for. -/
def basicEntities : List (List Char × Char) :=
  [("amp;".data, '&'), ("lt;".data, '<'), ("gt;".data, '>'), ("#32;".data, ' ')]

/-- Does the list `cs` start with `name`? -/
def startsWith : List Char → List Char → Bool
  | [], _ => true
  | _ :: _, [] => false
  | a :: as, b :: bs => a = b && startsWith as bs

/-- The first reference of the table that `cs` starts with: its character and
the length of its name. -/
def findEntity : List (List Char × Char) → List Char → Option (Char × Nat)
  | [], _ => none
  | (name, ch) :: tbl, cs =>
    if startsWith name cs then some (ch, name.length) else findEntity tbl cs

/-- Left-to-right decoding; `skip` counts the characters of a reference name
still to be dropped. -/
def unescapeChars : Nat → List Char → List Char
  | _, [] => []
  | skip + 1, _ :: cs => unescapeChars skip cs
  | 0, ch :: cs =>
    if ch = '&' then
      match findEntity basicEntities cs with
      | some (r, n) => r :: unescapeChars n cs
      | none => ch :: unescapeChars 0 cs
    else ch :: unescapeChars 0 cs

/-- Modelled from the spec: entity decoding is library code outside the
sources; the spec describes it as decoding character entities into literal
characters.  This is what `html.UnescapeString` computes on texts whose only
character references are `&amp;`, `&lt;`, `&gt;` and `&#32;` (a space): each
is replaced by its character, in one pass from left to right, and every other
character is copied.  Used for sample runs only. -/
def unescapeBasic (s : String) : String :=
  ⟨unescapeChars 0 s.data⟩

/-- The library functions on the sample texts. -/
def basicLib : TextLib :=
  { stripTags := fun s => ⟨dropTags false s.data⟩
    unescapeString := unescapeBasic
    strictSanitize := fun s => ⟨dropTags false s.data⟩ }

/-- A default text format of the given size. -/
def sampleFormat (size : ℚ) : FieldLayout :=
  { Font := "noto", Size := size, Height := 5, Align := "L", Color := [0, 0, 0] }

/-- An A4 sheet in landscape with cards of 90 by 50. -/
def sampleLayout : Layout :=
  ⟨Orientation.Landscape, ⟨297, 210⟩, ⟨90, 50⟩⟩

/-- An A4 sheet in landscape with five columns of cards of width 59.4; the
width is the `float64` nearest to 59.4. -/
def fiveColumnLayout : Layout :=
  ⟨Orientation.Landscape, ⟨297, 210⟩, ⟨8359806808306483 / 140737488355328, 50⟩⟩

/-- A sample configuration with the given field lists and override table. -/
def sampleConfig (front back : List String) (table : List (String × FieldLayout)) : Config :=
  { Margin := 2, Front := ⟨front, sampleFormat 10⟩, Back := ⟨back, sampleFormat 12⟩,
    FieldLayouts := table, StripHTML := true, TrimSpace := true }

/-- A card with front fields `A`, `B` and back field `C`. -/
def sampleCard (n : String) : Card :=
  ⟨[("A", "<b>a</b>  " ++ n), ("B", "b &amp; " ++ n)], [("C", "c " ++ n)]⟩

/-- Two pages: a full row of three cards and a short row of one, then a page
with a single card. -/
def sampleDocument : Document :=
  [[[sampleCard "1", sampleCard "2", sampleCard "3"], [sampleCard "4"]], [[sampleCard "5"]]]

/-- Front fields `B`, `break`, `A`, back field `C`; `A` is set in size 20. -/
def sampleConfigA : Config :=
  sampleConfig ["B", "break", "A"] ["C"]
    [("A", { zeroLayout with Size := 20 }), ("break", { zeroLayout with Height := 7 })]

/-- The text handed to the entity decoder by `render`: the raw text after the
two optional stages. -/
def preDecode (lib : TextLib) (c : Config) (t : String) : String :=
  (fun u => if c.TrimSpace then spaceReplaceAll u else u)
    ((fun u => if c.StripHTML then lib.stripTags u else u) t)

/-- Back fields `break`, `C`; `break` has the height 7 and no other format. -/
def breakBackConfig : Config :=
  sampleConfig ["A"] ["break", "C"] [("break", { zeroLayout with Height := 7 })]

/-- Front fields `break`, `B`; the entry of `break` has the size 20. -/
def breakSizeConfig : Config :=
  sampleConfig ["break", "B"] ["C"] [("break", { zeroLayout with Size := 20, Height := 7 })]

/-- Front and back fields `A`, `B`; `A` is set in size 20. -/
def cascadeConfig : Config :=
  sampleConfig ["A", "B"] ["A", "B"] [("A", { zeroLayout with Size := 20 })]

/-- Front fields `B`, `break`; the entry of `break` has the size 20. -/
def breakCarryConfig : Config :=
  sampleConfig ["B", "break"] ["C"] [("break", { zeroLayout with Size := 20, Height := 7 })]

/-- Front fields `B`, `A`; `A` is set in size 20. -/
def carryConfig : Config :=
  sampleConfig ["B", "A"] ["C"] [("A", { zeroLayout with Size := 20 })]

/-- The sample configuration with both text flags off. -/
def plainConfig : Config :=
  { sampleConfigA with StripHTML := false, TrimSpace := false }

/-- Two pages of one card each. -/
def twoPages : Document :=
  [[[sampleCard "1"]], [[sampleCard "2"]]]

/-- The calls of the front sheet of a page in `render`: its rows drawn from
the default style of the front face (no calls if the face panics). -/
def frontSheet (fl : ℚ → ℚ) (lib : TextLib) (c : Config) (l : Layout) (page : Page) :
    List Event :=
  ((frontRows fl (sanitize lib c) c l (defaultStyle c.Front.Layout) page).map Prod.snd).getD []

/-- The calls of the back sheet of a page in `render`: its rows drawn from
the default style of the back face (no calls if the face panics). -/
def backSheet (fl : ℚ → ℚ) (lib : TextLib) (c : Config) (l : Layout) (page : Page) :
    List Event :=
  ((backRows fl (sanitize lib c) c l (defaultStyle c.Back.Layout) page).map Prod.snd).getD []

/-- The calls `e` draw exactly the cells `cs`, whatever cell-opening calls
follow them. -/
def DrawsCells (e : List Event) (cs : List Cell) : Prop :=
  ∀ rest, texts (segments isRect rest).1 = [] →
    cells (e ++ rest) = cs ++ cells rest ∧ texts (segments isRect (e ++ rest)).1 = []

/-! ## Lemmas on the loops -/

theorem loop_cons_eq_some {α : Type} (next : ℚ → ℚ)
    (body : ℚ → Style → α → Option (Style × List Event)) (p : ℚ) (st : Style) (a : α)
    (as : List α) (st2 : Style) (e : List Event) :
    loop next body p st (a :: as) = some (st2, e) ↔
      ∃ st1 e1 e2, body p st a = some (st1, e1) ∧
        loop next body (next p) st1 as = some (st2, e2) ∧ e = e1 ++ e2 := by
  constructor
  · intro h
    cases h1 : body p st a with
    | none => simp [loop, h1] at h
    | some r1 =>
      obtain ⟨st1, e1⟩ := r1
      cases h2 : loop next body (next p) st1 as with
      | none => simp [loop, h1, h2] at h
      | some r2 =>
        obtain ⟨s2, e2⟩ := r2
        simp only [loop, h1, h2, Option.some.injEq, Prod.mk.injEq] at h
        exact ⟨st1, e1, e2, rfl, by rw [← h.1, h2], h.2.symm⟩
  · rintro ⟨st1, e1, e2, h1, h2, rfl⟩
    simp only [loop, h1, h2]

/-- Induction along a successful loop. -/
theorem loop_rel {α : Type} {next : ℚ → ℚ}
    {body : ℚ → Style → α → Option (Style × List Event)}
    (R : ℚ → Style → List α → Style → List Event → Prop)
    (hnil : ∀ p st, R p st [] st [])
    (hcons : ∀ p st a as st1 e1 st2 e2, body p st a = some (st1, e1) →
      loop next body (next p) st1 as = some (st2, e2) → R (next p) st1 as st2 e2 →
      R p st (a :: as) st2 (e1 ++ e2))
    (as : List α) (p : ℚ) (st st2 : Style) (e : List Event)
    (h : loop next body p st as = some (st2, e)) : R p st as st2 e := by
  induction as generalizing p st st2 e with
  | nil =>
    simp only [loop, Option.some.injEq, Prod.mk.injEq] at h
    obtain ⟨rfl, rfl⟩ := h
    exact hnil p st
  | cons a as ih =>
    obtain ⟨st1, e1, e2, h1, h2, rfl⟩ := (loop_cons_eq_some next body p st a as st2 e).1 h
    exact hcons p st a as st1 e1 st2 e2 h1 h2 (ih (next p) st1 st2 e2 h2)

theorem segments_cons_of_none {β : Type} (sep : Event → Option β) (ev : Event)
    (rest : List Event) (h : sep ev = none) :
    segments sep (ev :: rest) = (ev :: (segments sep rest).1, (segments sep rest).2) := by
  simp only [segments, h]

theorem segments_append_of_none {β : Type} (sep : Event → Option β) (pre rest : List Event)
    (h : ∀ ev ∈ pre, sep ev = none) :
    segments sep (pre ++ rest) = (pre ++ (segments sep rest).1, (segments sep rest).2) := by
  induction pre with
  | nil => simp
  | cons a pre ih =>
    have ha : sep a = none := h a (List.mem_cons_self a pre)
    have ih1 := ih (fun ev hev => h ev (List.mem_cons_of_mem a hev))
    rw [List.cons_append, segments_cons_of_none sep a _ ha, ih1]
    rfl

theorem segments_cons_of_some {β : Type} (sep : Event → Option β) (ev : Event) (b : β)
    (rest : List Event) (h : sep ev = some b) :
    segments sep (ev :: rest) = ([], (b, (segments sep rest).1) :: (segments sep rest).2) := by
  simp only [segments, h]

theorem texts_append (a b : List Event) : texts (a ++ b) = texts a ++ texts b := by
  simp [texts]

theorem fontSizes_append (a b : List Event) : fontSizes (a ++ b) = fontSizes a ++ fontSizes b := by
  simp [fontSizes]

theorem drawsCells_nil : DrawsCells [] [] := by
  intro rest h
  simpa using h

theorem drawsCells_append {e1 e2 : List Event} {c1 c2 : List Cell}
    (h1 : DrawsCells e1 c1) (h2 : DrawsCells e2 c2) : DrawsCells (e1 ++ e2) (c1 ++ c2) := by
  intro rest h
  obtain ⟨h2a, h2b⟩ := h2 rest h
  obtain ⟨h1a, h1b⟩ := h1 (e2 ++ rest) h2b
  rw [List.append_assoc, h1a, h2a, List.append_assoc]
  exact ⟨rfl, h1b⟩

theorem drawsCells_cells {e : List Event} {cs : List Cell} (h : DrawsCells e cs) :
    cells e = cs := by
  have := (h [] (by simp [segments, texts])).1
  simpa [cells, segments] using this

theorem drawsCells_card (fl : ℚ → ℚ) (c : Config) (l : Layout) (x y : ℚ) (fe : List Event)
    (hfe : ∀ ev ∈ fe, isRect ev = none) :
    DrawsCells (cardHead fl c l x y ++ fe)
      [⟨⟨x, y, l.CardSize.W, l.CardSize.H⟩, texts fe⟩] := by
  intro rest h
  have hseg := segments_append_of_none isRect fe rest hfe
  have h3 : segments isRect (Event.setXY (fl (x + c.Margin)) (fl (y + c.Margin)) :: (fe ++ rest)) =
      (Event.setXY (fl (x + c.Margin)) (fl (y + c.Margin)) :: (fe ++ (segments isRect rest).1),
        (segments isRect rest).2) := by
    rw [segments_cons_of_none isRect (Event.setXY (fl (x + c.Margin)) (fl (y + c.Margin))) _ rfl, hseg]
  have h2 : segments isRect (Event.rect x y l.CardSize.W l.CardSize.H "D" ::
      Event.setXY (fl (x + c.Margin)) (fl (y + c.Margin)) :: (fe ++ rest)) =
      ([], (⟨x, y, l.CardSize.W, l.CardSize.H⟩,
        Event.setXY (fl (x + c.Margin)) (fl (y + c.Margin)) :: (fe ++ (segments isRect rest).1)) ::
        (segments isRect rest).2) := by
    rw [segments_cons_of_some isRect (Event.rect x y l.CardSize.W l.CardSize.H "D")
      ⟨x, y, l.CardSize.W, l.CardSize.H⟩ _ rfl, h3]
  have h1 : segments isRect (cardHead fl c l x y ++ fe ++ rest) =
      ([Event.setDrawColor 220 220 220], (⟨x, y, l.CardSize.W, l.CardSize.H⟩,
        Event.setXY (fl (x + c.Margin)) (fl (y + c.Margin)) :: (fe ++ (segments isRect rest).1)) ::
        (segments isRect rest).2) := by
    have : cardHead fl c l x y ++ fe ++ rest = Event.setDrawColor 220 220 220 ::
        Event.rect x y l.CardSize.W l.CardSize.H "D" ::
        Event.setXY (fl (x + c.Margin)) (fl (y + c.Margin)) :: (fe ++ rest) := by
      simp [cardHead]
    rw [this, segments_cons_of_none isRect (Event.setDrawColor 220 220 220) _ rfl, h2]
  constructor
  · simp only [cells, h1, List.map_cons, List.singleton_append, List.cons.injEq, and_true]
    have : texts (Event.setXY (fl (x + c.Margin)) (fl (y + c.Margin)) :: (fe ++ (segments isRect rest).1))
        = texts fe := by
      rw [show Event.setXY (fl (x + c.Margin)) (fl (y + c.Margin)) :: (fe ++ (segments isRect rest).1) =
        [Event.setXY (fl (x + c.Margin)) (fl (y + c.Margin))] ++ fe ++ (segments isRect rest).1 by simp,
        texts_append, texts_append, h]
      simp [texts, textOf]
    rw [this]
  · rw [h1]
    simp [texts, textOf]

/-! ### One field -/

theorem drawField_eq_some {fl : ℚ → ℚ} {san : String → String} {c : Config} {l : Layout} {x : ℚ}
    {raw : String} {st st1 : Style} {field : String} {e : List Event}
    (h : drawField fl san c l x raw st field = some (st1, e)) :
    st1 = applyOverride (c.fieldLayout field) st ∧
      ∃ r g b, rgb st1.color = some (r, g, b) ∧
        e = [Event.addUTF8Font st1.font "" (st1.font ++ ".ttf"),
          Event.setFont st1.font "" st1.size,
          Event.setTextColor r g b,
          Event.multiCell (fl (l.CardSize.W - fl (2 * c.Margin))) st1.height (san raw) "0"
            st1.align false,
          Event.setXYGetY (fl (x + c.Margin))] := by
  unfold drawField at h
  cases hc : rgb (applyOverride (c.fieldLayout field) st).color with
  | none => simp [hc] at h
  | some t =>
    obtain ⟨r, g, b⟩ := t
    simp only [hc, Option.some.injEq, Prod.mk.injEq] at h
    obtain ⟨rfl, rfl⟩ := h
    exact ⟨rfl, r, g, b, hc, rfl⟩

theorem applyOverride_size (c : Config) (st : Style) (field : String) :
    (applyOverride (c.fieldLayout field) st).size = nextSize c st.size field := rfl

/-- What one drawn field contributes to each reading of the calls. -/
theorem drawField_reads {fl : ℚ → ℚ} {san : String → String} {c : Config} {l : Layout} {x : ℚ}
    {raw : String} {st st1 : Style} {field : String} {e : List Event}
    (h : drawField fl san c l x raw st field = some (st1, e)) :
    (∀ ev ∈ e, isRect ev = none ∧ isAddPage ev = none) ∧ texts e = [san raw] ∧
      fontSizes e = [nextSize c st.size field] ∧ st1.size = nextSize c st.size field := by
  obtain ⟨hst, r, g, b, -, rfl⟩ := drawField_eq_some h
  have hs : st1.size = nextSize c st.size field := by rw [hst]; rfl
  refine ⟨?_, ?_, ?_, hs⟩
  · intro ev hev
    simp only [List.mem_cons, List.mem_singleton, List.not_mem_nil, or_false] at hev
    rcases hev with rfl | rfl | rfl | rfl | rfl <;> exact ⟨rfl, rfl⟩
  · simp [texts, textOf]
  · simp [fontSizes, fontSizeOf, hs]

/-- The `break` branch: two cursor calls, the current style untouched. -/
theorem frontField_break {fl : ℚ → ℚ}
    (san : String → String) (c : Config) (l : Layout) (x : ℚ) (card : Card)
    (st : Style) :
    frontField fl san c l x card st "break" =
      some (st, [Event.ln (c.fieldLayout "break").Height, Event.setXYGetY (fl (x + c.Margin))]) := by
  simp [frontField]

theorem frontField_of_ne {fl : ℚ → ℚ}
    {san : String → String} {c : Config} {l : Layout} {x : ℚ} {card : Card}
    {st : Style} {field : String} (hf : field ≠ "break") :
    frontField fl san c l x card st field = drawField fl san c l x (card.front field) st field := by
  simp [frontField, hf]

theorem cascadeSizes_append (c : Config) (s : ℚ) (a b : List String) :
    cascadeSizes c s (a ++ b) = cascadeSizes c s a ++ cascadeSizes c (a.foldl (nextSize c) s) b := by
  induction a generalizing s with
  | nil => simp [cascadeSizes]
  | cons f fs ih => simp [cascadeSizes, ih]

/-- The field loop of a front card. -/
theorem frontFields_reads {fl : ℚ → ℚ}
    (san : String → String) (c : Config) (l : Layout) (x : ℚ) (card : Card)
    (fs : List String) (p : ℚ) (st st1 : Style) (e : List Event)
    (h : loop id (fun _ s f => frontField fl san c l x card s f) p st fs = some (st1, e)) :
    (∀ ev ∈ e, isRect ev = none ∧ isAddPage ev = none) ∧
      texts e = (fs.filter (fun f => f ≠ "break")).map (fun f => san (card.front f)) ∧
      fontSizes e = cascadeSizes c st.size (fs.filter (fun f => f ≠ "break")) ∧
      st1.size = (fs.filter (fun f => f ≠ "break")).foldl (nextSize c) st.size := by
  refine loop_rel (fun _ st fs st1 e =>
    (∀ ev ∈ e, isRect ev = none ∧ isAddPage ev = none) ∧
      texts e = (fs.filter (fun f => f ≠ "break")).map (fun f => san (card.front f)) ∧
      fontSizes e = cascadeSizes c st.size (fs.filter (fun f => f ≠ "break")) ∧
      st1.size = (fs.filter (fun f => f ≠ "break")).foldl (nextSize c) st.size)
    ?_ ?_ fs p st st1 e h
  · intro _ st
    simp [texts, fontSizes, cascadeSizes]
  · intro p st f fs s1 e1 s2 e2 h1 _ ih
    obtain ⟨ih1, ih2, ih3, ih4⟩ := ih
    by_cases hf : f = "break"
    · subst hf
      rw [frontField_break] at h1
      simp only [Option.some.injEq, Prod.mk.injEq] at h1
      obtain ⟨rfl, rfl⟩ := h1
      refine ⟨?_, ?_, ?_, ?_⟩
      · intro ev hev
        simp only [List.cons_append, List.nil_append, List.mem_cons] at hev
        rcases hev with rfl | rfl | hev
        · exact ⟨rfl, rfl⟩
        · exact ⟨rfl, rfl⟩
        · exact ih1 ev hev
      · rw [texts_append, ih2]
        simp [texts, textOf]
      · rw [fontSizes_append, ih3]
        simp [fontSizes, fontSizeOf]
      · rw [ih4]
        simp
    · rw [frontField_of_ne hf] at h1
      obtain ⟨d1, d2, d3, d4⟩ := drawField_reads h1
      refine ⟨?_, ?_, ?_, ?_⟩
      · intro ev hev
        rcases List.mem_append.1 hev with hev | hev
        · exact d1 ev hev
        · exact ih1 ev hev
      · rw [texts_append, ih2, d2]
        simp [hf]
      · rw [fontSizes_append, ih3, d3, d4]
        simp [hf, cascadeSizes]
      · rw [ih4, d4]
        simp [hf]

/-- The field loop of a back card. -/
theorem backFields_reads {fl : ℚ → ℚ}
    (san : String → String) (c : Config) (l : Layout) (x : ℚ) (card : Card)
    (fs : List String) (p : ℚ) (st st1 : Style) (e : List Event)
    (h : loop id (fun _ s f => backField fl san c l x card s f) p st fs = some (st1, e)) :
    (∀ ev ∈ e, isRect ev = none ∧ isAddPage ev = none) ∧
      texts e = fs.map (fun f => san (card.back f)) ∧
      fontSizes e = cascadeSizes c st.size fs ∧
      st1.size = fs.foldl (nextSize c) st.size := by
  refine loop_rel (fun _ st fs st1 e =>
    (∀ ev ∈ e, isRect ev = none ∧ isAddPage ev = none) ∧
      texts e = fs.map (fun f => san (card.back f)) ∧
      fontSizes e = cascadeSizes c st.size fs ∧
      st1.size = fs.foldl (nextSize c) st.size)
    ?_ ?_ fs p st st1 e h
  · intro _ st
    simp [texts, fontSizes, cascadeSizes]
  · intro p st f fs s1 e1 s2 e2 h1 _ ih
    obtain ⟨ih1, ih2, ih3, ih4⟩ := ih
    obtain ⟨d1, d2, d3, d4⟩ := drawField_reads (show drawField fl san c l x (card.back f) st f =
      some (s1, e1) from h1)
    refine ⟨?_, ?_, ?_, ?_⟩
    · intro ev hev
      rcases List.mem_append.1 hev with hev | hev
      · exact d1 ev hev
      · exact ih1 ev hev
    · rw [texts_append, ih2, d2]
      simp
    · rw [fontSizes_append, ih3, d3, d4]
      simp [cascadeSizes]
    · rw [ih4, d4]
      simp

/-! ### Generic facts on loops -/

theorem loop_noAddPage {α : Type} {next : ℚ → ℚ}
    {body : ℚ → Style → α → Option (Style × List Event)}
    (hb : ∀ p st a st1 e, body p st a = some (st1, e) → ∀ ev ∈ e, isAddPage ev = none)
    (as : List α) (p : ℚ) (st st1 : Style) (e : List Event)
    (h : loop next body p st as = some (st1, e)) : ∀ ev ∈ e, isAddPage ev = none := by
  refine loop_rel (fun _ _ _ _ e => ∀ ev ∈ e, isAddPage ev = none) ?_ ?_ as p st st1 e h
  · intro _ _ ev hev
    simp at hev
  · intro p st a as s1 e1 s2 e2 h1 _ ih ev hev
    rcases List.mem_append.1 hev with hev | hev
    · exact hb p st a s1 e1 h1 ev hev
    · exact ih ev hev

theorem loop_cascade {α : Type} {next : ℚ → ℚ}
    {body : ℚ → Style → α → Option (Style × List Event)} (c : Config) (D : α → List String)
    (hb : ∀ p st a st1 e, body p st a = some (st1, e) →
      fontSizes e = cascadeSizes c st.size (D a) ∧ st1.size = (D a).foldl (nextSize c) st.size)
    (as : List α) (p : ℚ) (st st1 : Style) (e : List Event)
    (h : loop next body p st as = some (st1, e)) :
    fontSizes e = cascadeSizes c st.size (as.flatMap D) ∧
      st1.size = (as.flatMap D).foldl (nextSize c) st.size := by
  refine loop_rel (fun _ st as st1 e =>
    fontSizes e = cascadeSizes c st.size (as.flatMap D) ∧
      st1.size = (as.flatMap D).foldl (nextSize c) st.size) ?_ ?_ as p st st1 e h
  · intro _ st
    simp [fontSizes, cascadeSizes]
  · intro p st a as s1 e1 s2 e2 h1 _ ih
    obtain ⟨b1, b2⟩ := hb p st a s1 e1 h1
    obtain ⟨i1, i2⟩ := ih
    constructor
    · rw [fontSizes_append, b1, i1, List.flatMap_cons, cascadeSizes_append, b2]
    · rw [i2, b2, List.flatMap_cons, List.foldl_append]

theorem loop_drawsCells {α : Type} {next : ℚ → ℚ}
    {body : ℚ → Style → α → Option (Style × List Event)} (pos : ℕ → ℚ)
    (hpos : ∀ n, next (pos n) = pos (n + 1)) (F : ℕ → α → List Cell)
    (hb : ∀ n st a st1 e, body (pos n) st a = some (st1, e) → DrawsCells e (F n a))
    (as : List α) (n : ℕ) (st st1 : Style) (e : List Event)
    (h : loop next body (pos n) st as = some (st1, e)) :
    DrawsCells e ((as.enumFrom n).flatMap (fun ia => F ia.1 ia.2)) := by
  refine loop_rel (fun p _ as _ e => ∀ n, p = pos n →
    DrawsCells e ((as.enumFrom n).flatMap (fun ia => F ia.1 ia.2))) ?_ ?_ as (pos n) st st1 e h
    n rfl
  · intro _ _ n _
    simpa using drawsCells_nil
  · intro p st a as s1 e1 s2 e2 h1 _ ih n hn
    subst hn
    rw [List.enumFrom_cons, List.flatMap_cons]
    exact drawsCells_append (hb n st a s1 e1 h1) (ih (n + 1) (hpos n))

/-! ### Cards, rows and faces -/

theorem frontCard_eq_some {fl : ℚ → ℚ} {san : String → String} {c : Config} {l : Layout} {y x : ℚ}
    {st st1 : Style} {card : Card} {e : List Event}
    (h : frontCard fl san c l y x st card = some (st1, e)) :
    ∃ fe, loop id (fun _ s f => frontField fl san c l x card s f) 0 st c.Front.Fields =
      some (st1, fe) ∧ e = cardHead fl c l x y ++ fe := by
  unfold frontCard at h
  cases hl : loop id (fun _ s f => frontField fl san c l x card s f) 0 st c.Front.Fields with
  | none => simp [hl] at h
  | some r =>
    obtain ⟨s, fe⟩ := r
    simp only [hl, Option.some.injEq, Prod.mk.injEq] at h
    obtain ⟨rfl, rfl⟩ := h
    exact ⟨fe, rfl, rfl⟩

theorem backCard_eq_some {fl : ℚ → ℚ} {san : String → String} {c : Config} {l : Layout} {y x : ℚ}
    {st st1 : Style} {card : Card} {e : List Event}
    (h : backCard fl san c l y x st card = some (st1, e)) :
    ∃ fe, loop id (fun _ s f => backField fl san c l x card s f) 0 st c.Back.Fields =
      some (st1, fe) ∧ e = cardHead fl c l x y ++ fe := by
  unfold backCard at h
  cases hl : loop id (fun _ s f => backField fl san c l x card s f) 0 st c.Back.Fields with
  | none => simp [hl] at h
  | some r =>
    obtain ⟨s, fe⟩ := r
    simp only [hl, Option.some.injEq, Prod.mk.injEq] at h
    obtain ⟨rfl, rfl⟩ := h
    exact ⟨fe, rfl, rfl⟩

theorem cardHead_reads {fl : ℚ → ℚ} (c : Config) (l : Layout) (x y : ℚ) :
    (∀ ev ∈ cardHead fl c l x y, isAddPage ev = none) ∧ fontSizes (cardHead fl c l x y) = [] := by
  constructor
  · intro ev hev
    simp only [cardHead, List.mem_cons, List.mem_singleton, List.not_mem_nil, or_false] at hev
    rcases hev with rfl | rfl | rfl <;> rfl
  · simp [cardHead, fontSizes, fontSizeOf]

/-- One front card: its cell, and its part of the size cascade. -/
theorem frontCard_reads {fl : ℚ → ℚ} {san : String → String} {c : Config} {l : Layout} {y x : ℚ}
    {st st1 : Style} {card : Card} {e : List Event}
    (h : frontCard fl san c l y x st card = some (st1, e)) :
    DrawsCells e [⟨⟨x, y, l.CardSize.W, l.CardSize.H⟩, frontTexts san c card⟩] ∧
      (∀ ev ∈ e, isAddPage ev = none) ∧
      fontSizes e = cascadeSizes c st.size (c.Front.Fields.filter (fun f => f ≠ "break")) ∧
      st1.size = (c.Front.Fields.filter (fun f => f ≠ "break")).foldl (nextSize c) st.size := by
  obtain ⟨fe, hfe, rfl⟩ := frontCard_eq_some h
  obtain ⟨f1, f2, f3, f4⟩ := frontFields_reads san c l x card _ _ _ _ _ hfe
  refine ⟨?_, ?_, ?_, f4⟩
  · have := drawsCells_card fl c l x y fe (fun ev hev => (f1 ev hev).1)
    rw [f2] at this
    exact this
  · intro ev hev
    rcases List.mem_append.1 hev with hev | hev
    · exact (cardHead_reads c l x y).1 ev hev
    · exact (f1 ev hev).2
  · rw [fontSizes_append, (cardHead_reads c l x y).2, f3, List.nil_append]

/-- One back card: its cell, and its part of the size cascade. -/
theorem backCard_reads {fl : ℚ → ℚ} {san : String → String} {c : Config} {l : Layout} {y x : ℚ}
    {st st1 : Style} {card : Card} {e : List Event}
    (h : backCard fl san c l y x st card = some (st1, e)) :
    DrawsCells e [⟨⟨x, y, l.CardSize.W, l.CardSize.H⟩, backTexts san c card⟩] ∧
      (∀ ev ∈ e, isAddPage ev = none) ∧
      fontSizes e = cascadeSizes c st.size c.Back.Fields ∧
      st1.size = c.Back.Fields.foldl (nextSize c) st.size := by
  obtain ⟨fe, hfe, rfl⟩ := backCard_eq_some h
  obtain ⟨f1, f2, f3, f4⟩ := backFields_reads san c l x card _ _ _ _ _ hfe
  refine ⟨?_, ?_, ?_, f4⟩
  · have := drawsCells_card fl c l x y fe (fun ev hev => (f1 ev hev).1)
    rw [f2] at this
    exact this
  · intro ev hev
    rcases List.mem_append.1 hev with hev | hev
    · exact (cardHead_reads c l x y).1 ev hev
    · exact (f1 ev hev).2
  · rw [fontSizes_append, (cardHead_reads c l x y).2, f3, List.nil_append]

/-- One front row at height `y`. -/
theorem frontRow_reads {fl : ℚ → ℚ} {san : String → String} {c : Config} {l : Layout} {y : ℚ}
    {st st1 : Style} {row : Row} {e : List Event}
    (h : frontRow fl san c l y st row = some (st1, e)) :
    DrawsCells e (row.enum.map (fun ic =>
        ⟨⟨frontX fl l ic.1, y, l.CardSize.W, l.CardSize.H⟩, frontTexts san c ic.2⟩)) ∧
      (∀ ev ∈ e, isAddPage ev = none) ∧
      fontSizes e = cascadeSizes c st.size
        (row.flatMap (fun _ => c.Front.Fields.filter (fun f => f ≠ "break"))) ∧
      st1.size = (row.flatMap (fun _ => c.Front.Fields.filter (fun f => f ≠ "break"))).foldl
        (nextSize c) st.size := by
  unfold frontRow at h
  have hc := loop_cascade c (fun _ : Card => c.Front.Fields.filter (fun f => f ≠ "break"))
    (fun p st a st1 e hb => (frontCard_reads hb).2.2) row 0 st st1 e h
  refine ⟨?_, ?_, hc.1, hc.2⟩
  · have h0 : loop (fun x => fl (x + l.CardSize.W)) (frontCard fl san c l y)
        (frontX fl l 0) st row = some (st1, e) := h
    have := loop_drawsCells (frontX fl l)
      (fun n => (Function.iterate_succ_apply' _ n _).symm)
      (fun n card => [⟨⟨frontX fl l n, y, l.CardSize.W, l.CardSize.H⟩,
        frontTexts san c card⟩])
      (fun n st a st1 e hb => (frontCard_reads hb).1) row 0 st st1 e h0
    rw [List.map_eq_flatMap]
    exact this
  · exact loop_noAddPage (fun p st a st1 e hb => (frontCard_reads hb).2.1) row 0 st st1 e h

/-- One back row at height `y`. -/
theorem backRow_reads {fl : ℚ → ℚ} {san : String → String} {c : Config} {l : Layout} {y : ℚ}
    {st st1 : Style} {row : Row} {e : List Event}
    (h : backRow fl san c l y st row = some (st1, e)) :
    DrawsCells e (row.enum.map (fun ic =>
        ⟨⟨backX fl l ic.1, y, l.CardSize.W, l.CardSize.H⟩, backTexts san c ic.2⟩)) ∧
      (∀ ev ∈ e, isAddPage ev = none) ∧
      fontSizes e = cascadeSizes c st.size (row.flatMap (fun _ => c.Back.Fields)) ∧
      st1.size = (row.flatMap (fun _ => c.Back.Fields)).foldl (nextSize c) st.size := by
  unfold backRow at h
  have hc := loop_cascade c (fun _ : Card => c.Back.Fields)
    (fun p st a st1 e hb => (backCard_reads hb).2.2) row _ st st1 e h
  refine ⟨?_, ?_, hc.1, hc.2⟩
  · have h0 : loop (fun x => fl (x - l.CardSize.W)) (backCard fl san c l y)
        (backX fl l 0) st row = some (st1, e) := h
    have := loop_drawsCells (backX fl l)
      (fun n => (Function.iterate_succ_apply' _ n _).symm)
      (fun n card => [⟨⟨backX fl l n, y, l.CardSize.W, l.CardSize.H⟩,
        backTexts san c card⟩])
      (fun n st a st1 e hb => (backCard_reads hb).1) row 0 st st1 e h0
    rw [List.map_eq_flatMap]
    exact this
  · exact loop_noAddPage (fun p st a st1 e hb => (backCard_reads hb).2.1) row _ st st1 e h

/-- A front face: its cells, no page break, and its size cascade. -/
theorem frontRows_reads {fl : ℚ → ℚ} {san : String → String} {c : Config} {l : Layout}
    {st st1 : Style} {page : Page} {e : List Event}
    (h : frontRows fl san c l st page = some (st1, e)) :
    cells e = frontCellsAt fl san c l page ∧ (∀ ev ∈ e, isAddPage ev = none) ∧
      fontSizes e = cascadeSizes c st.size (frontDrawn c page) ∧
      st1.size = (frontDrawn c page).foldl (nextSize c) st.size := by
  unfold frontRows at h
  have hc := loop_cascade c
    (fun row : Row => row.flatMap (fun _ => c.Front.Fields.filter (fun f => f ≠ "break")))
    (fun p st a st1 e hb => (frontRow_reads hb).2.2) page 0 st st1 e h
  refine ⟨?_, ?_, hc.1, hc.2⟩
  · have h0 : loop (fun y => fl (y + l.CardSize.H)) (frontRow fl san c l)
        (rowY fl l 0) st page = some (st1, e) := h
    have hd := loop_drawsCells (rowY fl l)
      (fun n => (Function.iterate_succ_apply' _ n _).symm)
      (fun j row => row.enum.map (fun ic =>
        ⟨⟨frontX fl l ic.1, rowY fl l j, l.CardSize.W, l.CardSize.H⟩, frontTexts san c ic.2⟩))
      (fun n st a st1 e hb => (frontRow_reads hb).1) page 0 st st1 e h0
    exact drawsCells_cells hd
  · exact loop_noAddPage (fun p st a st1 e hb => (frontRow_reads hb).2.1) page 0 st st1 e h

/-- A back face: its cells, no page break, and its size cascade. -/
theorem backRows_reads {fl : ℚ → ℚ} {san : String → String} {c : Config} {l : Layout}
    {st st1 : Style} {page : Page} {e : List Event}
    (h : backRows fl san c l st page = some (st1, e)) :
    cells e = backCellsAt fl san c l page ∧ (∀ ev ∈ e, isAddPage ev = none) ∧
      fontSizes e = cascadeSizes c st.size (backDrawn c page) ∧
      st1.size = (backDrawn c page).foldl (nextSize c) st.size := by
  unfold backRows at h
  have hc := loop_cascade c (fun row : Row => row.flatMap (fun _ => c.Back.Fields))
    (fun p st a st1 e hb => (backRow_reads hb).2.2) page 0 st st1 e h
  refine ⟨?_, ?_, hc.1, hc.2⟩
  · have h0 : loop (fun y => fl (y + l.CardSize.H)) (backRow fl san c l)
        (rowY fl l 0) st page = some (st1, e) := h
    have hd := loop_drawsCells (rowY fl l)
      (fun n => (Function.iterate_succ_apply' _ n _).symm)
      (fun j row => row.enum.map (fun ic =>
        ⟨⟨backX fl l ic.1, rowY fl l j, l.CardSize.W, l.CardSize.H⟩, backTexts san c ic.2⟩))
      (fun n st a st1 e hb => (backRow_reads hb).1) page 0 st st1 e h0
    exact drawsCells_cells hd
  · exact loop_noAddPage (fun p st a st1 e hb => (backRow_reads hb).2.1) page 0 st st1 e h

/-! ### Exact arithmetic -/

theorem frontX_exact (l : Layout) (i : ℕ) : frontX exactArith l i = i * l.CardSize.W := by
  induction i with
  | zero => simp [frontX]
  | succ n ih =>
    unfold frontX at ih ⊢
    rw [Function.iterate_succ_apply', ih]
    simp only [exactArith]
    push_cast
    ring

theorem backX_exact (l : Layout) (i : ℕ) :
    backX exactArith l i = l.PageSize.W - l.CardSize.W - i * l.CardSize.W := by
  induction i with
  | zero => simp [backX, exactArith]
  | succ n ih =>
    unfold backX at ih ⊢
    rw [Function.iterate_succ_apply', ih]
    simp only [exactArith]
    push_cast
    ring

theorem rowY_exact (l : Layout) (j : ℕ) : rowY exactArith l j = j * l.CardSize.H := by
  induction j with
  | zero => simp [rowY]
  | succ n ih =>
    unfold rowY at ih ⊢
    rw [Function.iterate_succ_apply', ih]
    simp only [exactArith]
    push_cast
    ring

theorem frontCellsAt_exact (san : String → String) (c : Config) (l : Layout) (page : Page) :
    frontCellsAt exactArith san c l page = frontCells san c l page := by
  simp only [frontCellsAt, frontCells, frontBox, frontX_exact, rowY_exact]

theorem backCellsAt_exact (san : String → String) (c : Config) (l : Layout) (page : Page) :
    backCellsAt exactArith san c l page = backCells san c l page := by
  simp only [backCellsAt, backCells, backBox, backX_exact, rowY_exact]

theorem loop_texts {α : Type} {next : ℚ → ℚ}
    {body : ℚ → Style → α → Option (Style × List Event)} (T : α → List String)
    (hb : ∀ p st a st1 e, body p st a = some (st1, e) → texts e = T a)
    (as : List α) (p : ℚ) (st st1 : Style) (e : List Event)
    (h : loop next body p st as = some (st1, e)) : texts e = as.flatMap T := by
  refine loop_rel (fun _ _ as _ e => texts e = as.flatMap T) ?_ ?_ as p st st1 e h
  · intro _ _
    simp [texts]
  · intro p st a as s1 e1 s2 e2 h1 _ ih
    rw [texts_append, hb p st a s1 e1 h1, ih, List.flatMap_cons]

theorem cardHead_texts {fl : ℚ → ℚ}
    (c : Config) (l : Layout) (x y : ℚ) : texts (cardHead fl c l x y) = [] := by
  simp [cardHead, texts, textOf]

/-- The texts drawn on a front face, in order. -/
theorem frontRows_texts {fl : ℚ → ℚ} {san : String → String} {c : Config} {l : Layout}
    {st st1 : Style} {page : Page} {e : List Event}
    (h : frontRows fl san c l st page = some (st1, e)) :
    texts e = page.flatMap (fun row => row.flatMap (frontTexts san c)) := by
  unfold frontRows at h
  refine loop_texts (fun row : Row => row.flatMap (frontTexts san c)) ?_ page 0 st st1 e h
  intro y st row s1 e1 hrow
  unfold frontRow at hrow
  refine loop_texts (frontTexts san c) ?_ row 0 st s1 e1 hrow
  intro x st card s2 e2 hcard
  obtain ⟨fe, hfe, rfl⟩ := frontCard_eq_some hcard
  rw [texts_append, cardHead_texts, List.nil_append,
    (frontFields_reads san c l x card _ _ _ _ _ hfe).2.1]
  rfl

/-- The texts drawn on a back face, in order. -/
theorem backRows_texts {fl : ℚ → ℚ} {san : String → String} {c : Config} {l : Layout}
    {st st1 : Style} {page : Page} {e : List Event}
    (h : backRows fl san c l st page = some (st1, e)) :
    texts e = page.flatMap (fun row => row.flatMap (backTexts san c)) := by
  unfold backRows at h
  refine loop_texts (fun row : Row => row.flatMap (backTexts san c)) ?_ page 0 st st1 e h
  intro y st row s1 e1 hrow
  unfold backRow at hrow
  refine loop_texts (backTexts san c) ?_ row _ st s1 e1 hrow
  intro x st card s2 e2 hcard
  obtain ⟨fe, hfe, rfl⟩ := backCard_eq_some hcard
  rw [texts_append, cardHead_texts, List.nil_append,
    (backFields_reads san c l x card _ _ _ _ _ hfe).2.1]
  rfl

/-! ### The page loop of `render` -/

theorem render_cons_eq_some {fl : ℚ → ℚ} {lib : TextLib} {c : Config} {l : Layout} {page : Page}
    {rest : Document} {evs : List Event} :
    render fl lib c l (page :: rest) = some evs ↔
      ∃ sF eF sB eB e,
        frontRows fl (sanitize lib c) c l (defaultStyle c.Front.Layout) page = some (sF, eF) ∧
        backRows fl (sanitize lib c) c l (defaultStyle c.Back.Layout) page = some (sB, eB) ∧
        render fl lib c l rest = some e ∧
        evs = Event.addPage :: (eF ++ Event.addPage :: (eB ++ e)) := by
  constructor
  · intro h
    cases hF : frontRows fl (sanitize lib c) c l (defaultStyle c.Front.Layout) page with
    | none => simp [render, hF] at h
    | some rF =>
      obtain ⟨sF, eF⟩ := rF
      cases hB : backRows fl (sanitize lib c) c l (defaultStyle c.Back.Layout) page with
      | none => simp [render, hF, hB] at h
      | some rB =>
        obtain ⟨sB, eB⟩ := rB
        cases hR : render fl lib c l rest with
        | none => simp [render, hF, hB, hR] at h
        | some e =>
          simp only [render, hF, hB, hR, Option.some.injEq] at h
          exact ⟨sF, eF, sB, eB, e, rfl, rfl, rfl, h.symm⟩
  · rintro ⟨sF, eF, sB, eB, e, hF, hB, hR, rfl⟩
    simp only [render, hF, hB, hR]

theorem render_head {fl : ℚ → ℚ} {lib : TextLib} {c : Config} {l : Layout} {d : Document}
    {evs : List Event} (h : render fl lib c l d = some evs) :
    (segments isAddPage evs).1 = [] := by
  cases d with
  | nil =>
    simp only [render, Option.some.injEq] at h
    subst h
    rfl
  | cons page rest =>
    obtain ⟨sF, eF, sB, eB, e, -, -, -, rfl⟩ := render_cons_eq_some.1 h
    rw [segments_cons_of_some isAddPage Event.addPage () _ rfl]

theorem sheets_addPage_append (e rest : List Event) (he : ∀ ev ∈ e, isAddPage ev = none)
    (hrest : (segments isAddPage rest).1 = []) :
    sheets (Event.addPage :: (e ++ rest)) = e :: sheets rest := by
  unfold sheets
  rw [segments_cons_of_some isAddPage Event.addPage () _ rfl,
    segments_append_of_none isAddPage e rest he, hrest]
  simp

/-- The sheets of `render`: for each page its front sheet, then its back
sheet; both faces of every page run without panic. -/
theorem render_sheets {fl : ℚ → ℚ} {lib : TextLib} {c : Config} {l : Layout} (d : Document)
    (evs : List Event) (h : render fl lib c l d = some evs) :
    sheets evs = d.flatMap (fun page => [frontSheet fl lib c l page, backSheet fl lib c l page]) ∧
      ∀ page ∈ d,
        (∃ sF, frontRows fl (sanitize lib c) c l (defaultStyle c.Front.Layout) page =
          some (sF, frontSheet fl lib c l page)) ∧
        (∃ sB, backRows fl (sanitize lib c) c l (defaultStyle c.Back.Layout) page =
          some (sB, backSheet fl lib c l page)) := by
  induction d generalizing evs with
  | nil =>
    simp only [render, Option.some.injEq] at h
    subst h
    simp [sheets, segments]
  | cons page rest ih =>
    obtain ⟨sF, eF, sB, eB, e, hF, hB, hR, rfl⟩ := render_cons_eq_some.1 h
    obtain ⟨ih1, ih2⟩ := ih e hR
    have hfs : frontSheet fl lib c l page = eF := by simp [frontSheet, hF]
    have hbs : backSheet fl lib c l page = eB := by simp [backSheet, hB]
    have hhead : (segments isAddPage (Event.addPage :: (eB ++ e))).1 = [] := by
      rw [segments_cons_of_some isAddPage Event.addPage () _ rfl]
    constructor
    · rw [sheets_addPage_append eF _ (frontRows_reads hF).2.1 hhead,
        sheets_addPage_append eB e (backRows_reads hB).2.1 (render_head hR), ih1,
        List.flatMap_cons, hfs, hbs]
      rfl
    · intro pg hpg
      rcases List.mem_cons.1 hpg with rfl | hpg
      · exact ⟨⟨sF, by rw [hfs]; exact hF⟩, ⟨sB, by rw [hbs]; exact hB⟩⟩
      · exact ih2 pg hpg

theorem pairUp_flatMap {α β : Type} (f g : α → β) (d : List α) :
    pairUp (d.flatMap (fun a => [f a, g a])) = d.map (fun a => (f a, g a)) := by
  induction d with
  | nil => rfl
  | cons a d ih =>
    rw [List.flatMap_cons, List.map_cons]
    show pairUp (f a :: g a :: d.flatMap (fun a => [f a, g a])) = _
    rw [pairUp, ih]

/-- Any reading of the sheets of `render`, sheet by sheet. -/
theorem render_sheets_map {fl : ℚ → ℚ}
    {γ : Type} {lib : TextLib} {c : Config} {l : Layout} (d : Document)
    (evs : List Event) (h : render fl lib c l d = some evs) (obs : List Event → γ)
    (fF fB : Page → γ)
    (hF : ∀ page st st1 e, frontRows fl (sanitize lib c) c l st page = some (st1, e) →
      st = defaultStyle c.Front.Layout → obs e = fF page)
    (hB : ∀ page st st1 e, backRows fl (sanitize lib c) c l st page = some (st1, e) →
      st = defaultStyle c.Back.Layout → obs e = fB page) :
    (sheets evs).map obs = d.flatMap (fun page => [fF page, fB page]) := by
  obtain ⟨h1, h2⟩ := render_sheets d evs h
  rw [h1, List.map_flatMap]
  refine List.flatMap_congr ?_
  intro page hpage
  obtain ⟨⟨sF, hF1⟩, ⟨sB, hB1⟩⟩ := h2 page hpage
  simp only [List.map_cons, List.map_nil]
  rw [hF page _ sF _ hF1 rfl, hB page _ sB _ hB1 rfl]

/-! ### The page loops of `main.go` -/

theorem segments_append_of_head {β : Type} (sep : Event → Option β) (a b : List Event)
    (hb : (segments sep b).1 = []) :
    segments sep (a ++ b) = ((segments sep a).1, (segments sep a).2 ++ (segments sep b).2) := by
  induction a with
  | nil =>
    rw [List.nil_append]
    exact Prod.ext hb (by simp [segments])
  | cons x a ih =>
    rw [List.cons_append]
    cases hx : sep x with
    | none =>
      rw [segments_cons_of_none sep x _ hx, segments_cons_of_none sep x _ hx, ih]
    | some y =>
      rw [segments_cons_of_some sep x y _ hx, segments_cons_of_some sep x y _ hx, ih]
      rfl

theorem sheets_append_of_head (a b : List Event) (hb : (segments isAddPage b).1 = []) :
    sheets (a ++ b) = sheets a ++ sheets b := by
  unfold sheets
  rw [segments_append_of_head isAddPage a b hb, List.map_append]

theorem mainPage_eq_some {rows : Style → Page → Option (Style × List Event)} {st st1 : Style}
    {page : Page} {e : List Event} (h : mainPage rows st page = some (st1, e)) :
    ∃ er, rows st page = some (st1, er) ∧ e = Event.addPage :: er := by
  unfold mainPage at h
  cases hr : rows st page with
  | none => simp [hr] at h
  | some r =>
    obtain ⟨s, er⟩ := r
    simp only [hr, Option.some.injEq, Prod.mk.injEq] at h
    obtain ⟨rfl, rfl⟩ := h
    exact ⟨er, rfl, rfl⟩

/-- The sheets of one page loop of `main.go`: one sheet per page. -/
theorem mainPages_sheets {rows : Style → Page → Option (Style × List Event)}
    (G : Page → List Cell)
    (hrows : ∀ st page st1 e, rows st page = some (st1, e) →
      cells e = G page ∧ ∀ ev ∈ e, isAddPage ev = none)
    (d : Document) (p : ℚ) (st st1 : Style) (evs : List Event)
    (h : loop id (fun _ s page => mainPage rows s page) p st d = some (st1, evs)) :
    (segments isAddPage evs).1 = [] ∧ (sheets evs).map cells = d.map G := by
  refine loop_rel (fun _ _ d _ evs =>
    (segments isAddPage evs).1 = [] ∧ (sheets evs).map cells = d.map G) ?_ ?_ d p st st1 evs h
  · intro _ _
    simp [sheets, segments]
  · intro p st page d s1 e1 s2 e2 h1 _ ih
    obtain ⟨er, hr, rfl⟩ := mainPage_eq_some h1
    obtain ⟨hc, hn⟩ := hrows st page s1 er hr
    constructor
    · rw [List.cons_append, segments_cons_of_some isAddPage Event.addPage () _ rfl]
    · rw [List.cons_append, sheets_addPage_append er e2 hn ih.1, List.map_cons, List.map_cons,
        hc, ih.2]

/-! ## The claims -/

theorem mirror_frontBox (l : Layout) (j i : ℕ) : mirror l (frontBox l j i) = backBox l j i := by
  simp only [mirror, frontBox, backBox, Box.mk.injEq, and_true]
  ring

theorem facePairs_fst (san : String → String) (c : Config) (l : Layout) (page : Page) :
    (facePairs san c l page).map Prod.fst = frontCells san c l page := by
  simp only [facePairs, frontCells, List.map_flatMap, List.map_map]
  rfl

theorem facePairs_snd (san : String → String) (c : Config) (l : Layout) (page : Page) :
    (facePairs san c l page).map Prod.snd = backCells san c l page := by
  simp only [facePairs, backCells, List.map_flatMap, List.map_map]
  refine List.flatMap_congr (fun jr _ => List.map_congr_left (fun ic _ => ?_))
  simp only [Function.comp_apply, mirror_frontBox]

theorem sanitize_eq_pipeline (lib : TextLib) (c : Config) : sanitize lib c = pipeline lib c := rfl

/-- The cells of the sheets of `render`, sheet by sheet. -/
theorem render_cells {fl : ℚ → ℚ} {lib : TextLib} {c : Config} {l : Layout} (d : Document)
    (evs : List Event) (h : render fl lib c l d = some evs) :
    (sheets evs).map cells = d.flatMap (fun page =>
      [frontCellsAt fl (sanitize lib c) c l page, backCellsAt fl (sanitize lib c) c l page]) :=
  render_sheets_map d evs h cells _ _
    (fun _ _ _ _ hF _ => (frontRows_reads hF).1) (fun _ _ _ _ hB _ => (backRows_reads hB).1)

theorem pairUp_map {α β : Type} (f : α → β) (xs : List α) :
    pairUp (xs.map f) = (pairUp xs).map (fun p => (f p.1, f p.2)) := by
  induction xs using pairUp.induct with
  | case1 a b rest ih => simp [pairUp, ih]
  | case2 xs hx =>
    cases xs with
    | nil => rfl
    | cons a xs =>
      cases xs with
      | nil => rfl
      | cons b xs => exact absurd rfl (hx a b xs)

/-- The cells of the sheets of `render`, as pairs of a front and a back sheet. -/
theorem render_cell_pairs {fl : ℚ → ℚ} {lib : TextLib} {c : Config} {l : Layout} (d : Document)
    (evs : List Event) (h : render fl lib c l d = some evs) :
    (pairUp (sheets evs)).map (fun fb => (cells fb.1, cells fb.2)) =
      d.map (fun page =>
        (frontCellsAt fl (sanitize lib c) c l page, backCellsAt fl (sanitize lib c) c l page)) := by
  rw [← pairUp_map, render_cells d evs h, pairUp_flatMap]

/-- The same in exact arithmetic, with the positions in closed form. -/
theorem render_cell_pairs_exact {lib : TextLib} {c : Config} {l : Layout} (d : Document)
    (evs : List Event) (h : render exactArith lib c l d = some evs) :
    (pairUp (sheets evs)).map (fun fb => (cells fb.1, cells fb.2)) =
      d.map (fun page =>
        (frontCells (sanitize lib c) c l page, backCells (sanitize lib c) c l page)) := by
  rw [render_cell_pairs d evs h]
  simp only [frontCellsAt_exact, backCellsAt_exact]

/-- The back sheets of `main.go` are the sheets after the first `n`. -/
theorem mainLoops_back_cells {fl : ℚ → ℚ} {lib : TextLib} {c : Config} {l : Layout}
    (d : Document) (evs : List Event) (h : mainLoops fl lib c l d = some evs) :
    ((sheets evs).drop d.length).map cells =
      d.map (backCellsAt fl (sanitizeMain lib c) c l) := by
  unfold mainLoops at h
  cases hF : mainFrontPages fl lib c l (defaultStyle c.Front.Layout) d with
  | none => simp [hF] at h
  | some rF =>
    obtain ⟨sF, eF⟩ := rF
    cases hB : mainBackPages fl lib c l (defaultStyle c.Back.Layout) d with
    | none => simp [hF, hB] at h
    | some rB =>
      obtain ⟨sB, eB⟩ := rB
      simp only [hF, hB, Option.some.injEq] at h
      subst h
      obtain ⟨-, f2⟩ := mainPages_sheets (frontCellsAt fl (sanitizeMain lib c) c l)
        (fun st page st1 e hr => ⟨(frontRows_reads hr).1, (frontRows_reads hr).2.1⟩)
        d 0 _ sF eF hF
      obtain ⟨b1, b2⟩ := mainPages_sheets (backCellsAt fl (sanitizeMain lib c) c l)
        (fun st page st1 e hr => ⟨(backRows_reads hr).1, (backRows_reads hr).2.1⟩)
        d 0 _ sB eB hB
      have hlen : (sheets eF).length = d.length := by
        have := congrArg List.length f2
        simpa using this
      rw [sheets_append_of_head eF eB b1, ← hlen, List.drop_left, b2]

/-- C1. In exact arithmetic (`exactArith`), in the back pass, on every page,
the card at index `i` of row `j` is outlined with its left edge at
`PageSize.W - cardW - i*cardW` and its top edge at `j*cardH`, whatever the
length of the row: the cells of the back sheet of every page of `render` (the
second sheet of each pair), and of every sheet of the back loop of `main.go`
(the sheets after the front sheets), are the cells `backCells`, whose
rectangle for that card is `backBox l j i` and whose texts are the back texts
of that card. -/
theorem back_pass_outlines (lib : TextLib) (c : Config) (l : Layout) (d : Document) :
    (∀ evs, render exactArith lib c l d = some evs →
      (pairUp (sheets evs)).map (fun fb => cells fb.2) =
        d.map (backCells (sanitize lib c) c l)) ∧
    (∀ evs, mainLoops exactArith lib c l d = some evs →
      ((sheets evs).drop d.length).map cells = d.map (backCells (sanitizeMain lib c) c l)) ∧
    (∀ (san : String → String) (page : Page),
      backCells san c l page = page.enum.flatMap (fun jr => jr.2.enum.map (fun ic =>
        ⟨⟨l.PageSize.W - l.CardSize.W - ic.1 * l.CardSize.W, jr.1 * l.CardSize.H,
          l.CardSize.W, l.CardSize.H⟩, backTexts san c ic.2⟩))) := by
  refine ⟨?_, ?_, ?_⟩
  · intro evs h
    have := congrArg (List.map Prod.snd) (render_cell_pairs_exact d evs h)
    simpa [List.map_map, Function.comp_def] using this
  · intro evs h
    rw [mainLoops_back_cells d evs h]
    exact List.map_congr_left (fun page _ => backCellsAt_exact _ c l page)
  · intro san page
    rfl

/-- C1 on the sample document, whose second row is short: both programs run,
and the single card of the short row is outlined at `297 - 90 - 0*90 = 207`. -/
theorem back_pass_outlines_witness :
    (∃ evs, render exactArith basicLib sampleConfigA sampleLayout sampleDocument = some evs ∧
      (pairUp (sheets evs)).map (fun fb => cells fb.2) =
        sampleDocument.map (backCells (sanitize basicLib sampleConfigA) sampleConfigA
          sampleLayout)) ∧
    (∃ evs, mainLoops exactArith basicLib sampleConfigA sampleLayout sampleDocument =
        some evs ∧
      ((sheets evs).drop sampleDocument.length).map cells =
        sampleDocument.map (backCells (sanitizeMain basicLib sampleConfigA) sampleConfigA
          sampleLayout)) ∧
    (backCells (sanitize basicLib sampleConfigA) sampleConfigA sampleLayout
        [[sampleCard "1", sampleCard "2", sampleCard "3"], [sampleCard "4"]]).map Cell.box =
      [⟨207, 0, 90, 50⟩, ⟨117, 0, 90, 50⟩, ⟨27, 0, 90, 50⟩, ⟨207, 50, 90, 50⟩] := by
  have h1 : (render exactArith basicLib sampleConfigA sampleLayout sampleDocument).isSome =
      true := by
    decide
  have h2 : (mainLoops exactArith basicLib sampleConfigA sampleLayout sampleDocument).isSome =
      true := by
    decide
  obtain ⟨e1, he1⟩ := Option.isSome_iff_exists.1 h1
  obtain ⟨e2, he2⟩ := Option.isSome_iff_exists.1 h2
  refine ⟨⟨e1, he1, (back_pass_outlines basicLib sampleConfigA sampleLayout
    sampleDocument).1 e1 he1⟩, ⟨e2, he2, (back_pass_outlines basicLib sampleConfigA sampleLayout
    sampleDocument).2.1 e2 he2⟩, ?_⟩
  rw [(back_pass_outlines basicLib sampleConfigA sampleLayout sampleDocument).2.2]
  simp [sampleLayout, List.enum, List.enumFrom]
  norm_num

/-- C2, counterexample. In `float64` arithmetic, with a page width of 297 and
cards of width 59.4, the two faces of a row of three cards are outlined at
the front left edges `0, 59.4, 118.8` and at the back left edges
`237.6, 178.2, 118.79999999999998`: the back edge of the third card is neither
the exact value of `PageSize.W - (front edge + cardW)` nor that expression
evaluated in `float64`, which is `118.80000000000001`. -/
theorem mirror_float_counterexample :
    (render binary64 basicLib sampleConfigA fiveColumnLayout
        [[[sampleCard "1", sampleCard "2", sampleCard "3"]]]).map
      (fun evs => (pairUp (sheets evs)).map (fun fb =>
        ((cells fb.1).map (fun k => k.box.x), (cells fb.2).map (fun k => k.box.x)))) =
      some [([0, 8359806808306483 / 140737488355328, 8359806808306483 / 70368744177664],
        [8359806808306483 / 35184372088832, 3134927553114931 / 17592186044416,
          4179903404153241 / 35184372088832])] ∧
    (4179903404153241 / 35184372088832 : ℚ) ≠
      297 - (8359806808306483 / 70368744177664 + 8359806808306483 / 140737488355328) ∧
    (4179903404153241 / 35184372088832 : ℚ) ≠
      binary64 (297 - binary64 (8359806808306483 / 70368744177664 +
        8359806808306483 / 140737488355328)) := by
  have h1 : (render binary64 basicLib sampleConfigA fiveColumnLayout
      [[[sampleCard "1", sampleCard "2", sampleCard "3"]]]).isSome = true := by
    decide
  obtain ⟨evs, he⟩ := Option.isSome_iff_exists.1 h1
  have hp := render_cell_pairs _ evs he
  have f1 : frontX binary64 fiveColumnLayout 1 = 8359806808306483 / 140737488355328 := by
    decide!
  have f2 : frontX binary64 fiveColumnLayout 2 = 8359806808306483 / 70368744177664 := by
    unfold frontX at f1 ⊢
    rw [Function.iterate_succ_apply', f1]
    decide!
  have b0 : backX binary64 fiveColumnLayout 0 = 8359806808306483 / 35184372088832 := by
    decide!
  have b1 : backX binary64 fiveColumnLayout 1 = 3134927553114931 / 17592186044416 := by
    unfold backX at b0 ⊢
    rw [Function.iterate_succ_apply', b0]
    decide!
  have b2 : backX binary64 fiveColumnLayout 2 = 4179903404153241 / 35184372088832 := by
    unfold backX at b1 ⊢
    rw [Function.iterate_succ_apply', b1]
    decide!
  have hx := congrArg (List.map (fun p : List Cell × List Cell =>
    (p.1.map (fun k => k.box.x), p.2.map (fun k => k.box.x)))) hp
  simp only [List.map_map, Function.comp_def, List.map_cons, List.map_nil, frontCellsAt,
    backCellsAt, List.enum, List.enumFrom, List.flatMap_cons, List.flatMap_nil,
    List.append_nil, f1, f2, b0, b1, b2] at hx
  refine ⟨?_, by decide!, by decide!⟩
  rw [he, Option.map_some', hx]
  rfl

/-- C2, amended. In exact arithmetic (`exactArith`), on every page the back
cell of a card is the mirror image, about the vertical centre line of the
page, of the front cell of the same card: the cells of each pair of sheets of
`render` are the first and the second components of `facePairs`, which lists
for every card its front cell and a back cell with the mirrored rectangle
(left edge `PageSize.W - (x + cardW)`, same `y`, width and height) and the
back texts of that card.  The card in the front column 0 gets the slot whose
right edge is the right edge of the page. -/
theorem back_cell_mirrors_front (lib : TextLib) (c : Config) (l : Layout) (d : Document)
    (evs : List Event) (h : render exactArith lib c l d = some evs) :
    (pairUp (sheets evs)).map (fun fb => (cells fb.1, cells fb.2)) =
        d.map (fun page => ((facePairs (sanitize lib c) c l page).map Prod.fst,
          (facePairs (sanitize lib c) c l page).map Prod.snd)) ∧
      (∀ page, ∀ p ∈ facePairs (sanitize lib c) c l page,
        p.2.box.x = l.PageSize.W - (p.1.box.x + l.CardSize.W) ∧ p.2.box.y = p.1.box.y ∧
          p.2.box.w = p.1.box.w ∧ p.2.box.h = p.1.box.h) ∧
      (∀ j, (frontBox l j 0).x = 0 ∧ (mirror l (frontBox l j 0)).x + l.CardSize.W =
        l.PageSize.W) := by
  refine ⟨?_, ?_, ?_⟩
  · rw [render_cell_pairs_exact d evs h]
    refine List.map_congr_left (fun page _ => ?_)
    rw [facePairs_fst, facePairs_snd]
  · intro page p hp
    simp only [facePairs, List.mem_flatMap, List.mem_map] at hp
    obtain ⟨jr, -, ic, -, rfl⟩ := hp
    exact ⟨rfl, rfl, rfl, rfl⟩
  · intro j
    simp [frontBox, mirror]

/-- C2, amended, on the sample document. -/
theorem back_cell_mirrors_front_witness :
    ∃ evs, render exactArith basicLib sampleConfigA sampleLayout sampleDocument = some evs ∧
      (pairUp (sheets evs)).map (fun fb => (cells fb.1, cells fb.2)) =
        sampleDocument.map (fun page =>
          ((facePairs (sanitize basicLib sampleConfigA) sampleConfigA sampleLayout page).map
            Prod.fst,
          (facePairs (sanitize basicLib sampleConfigA) sampleConfigA sampleLayout page).map
            Prod.snd)) := by
  have h1 : (render exactArith basicLib sampleConfigA sampleLayout sampleDocument).isSome =
      true := by
    decide
  obtain ⟨e1, he1⟩ := Option.isSome_iff_exists.1 h1
  exact ⟨e1, he1, (back_cell_mirrors_front basicLib sampleConfigA sampleLayout sampleDocument
    e1 he1).1⟩

/-- C3. For a document of `n` pages `render` adds exactly `2n` sheets, in the
order front of page 1, back of page 1, front of page 2, back of page 2, ...:
the sheets are, page after page, the front face and then the back face of that
page, with the front cells (front texts of the page's cards) on the first and
the back cells (back texts of the same cards) on the second.  This holds under
every rounding `fl`; in exact arithmetic the cells are `frontCells` and
`backCells`. -/
theorem sheets_interleaved (fl : ℚ → ℚ) (lib : TextLib) (c : Config) (l : Layout)
    (d : Document) (evs : List Event) (h : render fl lib c l d = some evs) :
    (sheets evs).length = 2 * d.length ∧
      sheets evs =
        d.flatMap (fun page => [frontSheet fl lib c l page, backSheet fl lib c l page]) ∧
      (sheets evs).map cells = d.flatMap (fun page =>
        [frontCellsAt fl (sanitize lib c) c l page, backCellsAt fl (sanitize lib c) c l page]) ∧
      (∀ page, frontCellsAt exactArith (sanitize lib c) c l page =
          frontCells (sanitize lib c) c l page ∧
        backCellsAt exactArith (sanitize lib c) c l page =
          backCells (sanitize lib c) c l page) := by
  have hs := (render_sheets d evs h).1
  refine ⟨?_, hs, render_cells d evs h,
    fun page => ⟨frontCellsAt_exact _ c l page, backCellsAt_exact _ c l page⟩⟩
  rw [hs]
  clear hs h
  induction d with
  | nil => rfl
  | cons page rest ih =>
    rw [List.flatMap_cons, List.length_append, ih, List.length_cons]
    simp only [List.length_cons, List.length_nil]
    omega

/-- C3 on the sample document: two pages, four sheets, with the texts of the
cards 1-4 on the first two sheets and of card 5 on the last two. -/
theorem sheets_interleaved_witness :
    ∃ evs, render binary64 basicLib sampleConfigA sampleLayout sampleDocument = some evs ∧
      (sheets evs).length = 2 * sampleDocument.length ∧
      (sheets evs).map texts =
        [["b & 1", "a 1", "b & 2", "a 2", "b & 3", "a 3", "b & 4", "a 4"],
         ["c 1", "c 2", "c 3", "c 4"], ["b & 5", "a 5"], ["c 5"]] := by
  have h1 : (render binary64 basicLib sampleConfigA sampleLayout sampleDocument).isSome = true := by
    decide
  obtain ⟨e1, he1⟩ := Option.isSome_iff_exists.1 h1
  refine ⟨e1, he1, (sheets_interleaved binary64 basicLib sampleConfigA sampleLayout sampleDocument
    e1 he1).1, ?_⟩
  have h2 : (render binary64 basicLib sampleConfigA sampleLayout sampleDocument).map
      (fun evs => (sheets evs).map texts) =
      some [["b & 1", "a 1", "b & 2", "a 2", "b & 3", "a 3", "b & 4", "a 4"],
         ["c 1", "c 2", "c 3", "c 4"], ["b & 5", "a 5"], ["c 5"]] := by
    decide
  rw [he1] at h2
  simpa using h2

/-- C7. Every text that `render` hands to `MultiCell` is
`decode (collapse (strip t))` of the raw text `t` of a field of a card, with
`strip` applied iff `StripHTML`, `collapse` iff `TrimSpace`, and `decode`
always and last (`pipeline`); the texts of each sheet are those of the fields
of its cards in order: on the front the configured front fields other than
`break`, on the back the configured back fields, through the same pipeline. -/
theorem texts_through_pipeline (fl : ℚ → ℚ) (lib : TextLib) (c : Config) (l : Layout)
    (d : Document) (evs : List Event) (h : render fl lib c l d = some evs) :
    (sheets evs).map texts = d.flatMap (fun page =>
        [page.flatMap (fun row => row.flatMap (fun card =>
          (c.Front.Fields.filter (fun f => f ≠ "break")).map
            (fun f => pipeline lib c (card.front f)))),
         page.flatMap (fun row => row.flatMap (fun card =>
          c.Back.Fields.map (fun f => pipeline lib c (card.back f))))]) ∧
      ∀ t, pipeline lib c t = lib.unescapeString
        (if c.TrimSpace then spaceReplaceAll (if c.StripHTML then lib.stripTags t else t)
          else (if c.StripHTML then lib.stripTags t else t)) := by
  refine ⟨?_, fun t => rfl⟩
  exact render_sheets_map d evs h texts _ _
    (fun _ _ _ _ hF _ => frontRows_texts hF) (fun _ _ _ _ hB _ => backRows_texts hB)

/-- C7 on the sample document: tags stripped, runs of blanks collapsed, the
entity decoded. -/
theorem texts_through_pipeline_witness :
    ∃ evs, render binary64 basicLib sampleConfigA sampleLayout sampleDocument = some evs ∧
      (sheets evs).map texts = sampleDocument.flatMap (fun page =>
        [page.flatMap (fun row => row.flatMap (fun card =>
          (sampleConfigA.Front.Fields.filter (fun f => f ≠ "break")).map
            (fun f => pipeline basicLib sampleConfigA (card.front f)))),
         page.flatMap (fun row => row.flatMap (fun card =>
          sampleConfigA.Back.Fields.map
            (fun f => pipeline basicLib sampleConfigA (card.back f))))]) ∧
      pipeline basicLib sampleConfigA "<b>a</b>  &amp; 1" = "a & 1" := by
  have h1 : (render binary64 basicLib sampleConfigA sampleLayout sampleDocument).isSome = true := by
    decide
  obtain ⟨e1, he1⟩ := Option.isSome_iff_exists.1 h1
  exact ⟨e1, he1, (texts_through_pipeline binary64 basicLib sampleConfigA sampleLayout sampleDocument
    e1 he1).1, by decide⟩

/-! ### Colour indexing -/

theorem lookup_mem {α β : Type} [BEq α] (k : α) (v : β) (xs : List (α × β))
    (h : xs.lookup k = some v) : ∃ p ∈ xs, p.2 = v := by
  induction xs with
  | nil => simp [List.lookup] at h
  | cons x xs ih =>
    obtain ⟨k1, v1⟩ := x
    rw [List.lookup] at h
    cases hk : (k == k1) with
    | true =>
      simp only [hk, Option.some.injEq] at h
      exact ⟨(k1, v1), List.mem_cons_self _ _, h⟩
    | false =>
      simp only [hk] at h
      obtain ⟨p, hp, hv⟩ := ih h
      exact ⟨p, List.mem_cons_of_mem _ hp, hv⟩

theorem fieldLayout_color {c : Config} (hc : ColourOK c) (f : String) :
    (c.fieldLayout f).Color = [] ∨ 3 ≤ (c.fieldLayout f).Color.length := by
  unfold Config.fieldLayout
  cases hl : c.FieldLayouts.lookup f with
  | none => exact Or.inl rfl
  | some v =>
    obtain ⟨p, hp, rfl⟩ := lookup_mem f v c.FieldLayouts hl
    exact hc.2.2 p hp

theorem rgb_of_length {color : List Int} (h : 3 ≤ color.length) :
    ∃ r g b, rgb color = some (r, g, b) := by
  match color, h with
  | r :: g :: b :: _, _ => exact ⟨r, g, b, by simp [rgb]⟩

theorem applyOverride_color {c : Config} (hc : ColourOK c) (f : String) {st : Style}
    (hst : 3 ≤ st.color.length) : 3 ≤ (applyOverride (c.fieldLayout f) st).color.length := by
  show 3 ≤ (if (c.fieldLayout f).Color.length > 0 then (c.fieldLayout f).Color
    else st.color).length
  rcases fieldLayout_color hc f with h0 | h3
  · rw [h0]
    simpa using hst
  · rw [if_pos (by omega)]
    exact h3

theorem drawField_total {fl : ℚ → ℚ}
    {c : Config} (hc : ColourOK c) (san : String → String) (l : Layout)
    (x : ℚ) (raw : String) (st : Style) (f : String) (hst : 3 ≤ st.color.length) :
    ∃ st1 e, drawField fl san c l x raw st f = some (st1, e) ∧ 3 ≤ st1.color.length := by
  have h3 := applyOverride_color hc f hst
  obtain ⟨r, g, b, hrgb⟩ := rgb_of_length h3
  unfold drawField
  simp only [hrgb]
  exact ⟨_, _, rfl, h3⟩

theorem loop_total {α : Type} {next : ℚ → ℚ}
    {body : ℚ → Style → α → Option (Style × List Event)} (Inv : Style → Prop)
    (hb : ∀ p st a, Inv st → ∃ st1 e, body p st a = some (st1, e) ∧ Inv st1)
    (as : List α) (p : ℚ) (st : Style) (hst : Inv st) :
    ∃ st1 e, loop next body p st as = some (st1, e) ∧ Inv st1 := by
  induction as generalizing p st with
  | nil => exact ⟨st, [], rfl, hst⟩
  | cons a as ih =>
    obtain ⟨s1, e1, h1, i1⟩ := hb p st a hst
    obtain ⟨s2, e2, h2, i2⟩ := ih (next p) s1 i1
    exact ⟨s2, e1 ++ e2, (loop_cons_eq_some next body p st a as s2 _).2
      ⟨s1, e1, e2, h1, h2, rfl⟩, i2⟩

theorem frontRows_total {fl : ℚ → ℚ}
    {c : Config} (hc : ColourOK c) (san : String → String) (l : Layout)
    (page : Page) (st : Style) (hst : 3 ≤ st.color.length) :
    ∃ st1 e, frontRows fl san c l st page = some (st1, e) ∧ 3 ≤ st1.color.length := by
  unfold frontRows
  refine loop_total (fun s => 3 ≤ s.color.length) ?_ page 0 st hst
  intro y st row hst
  unfold frontRow
  refine loop_total (fun s => 3 ≤ s.color.length) ?_ row 0 st hst
  intro x st card hst
  obtain ⟨s1, e1, h1, i1⟩ := @loop_total String id
    (fun _ s f => frontField fl san c l x card s f) (fun s => 3 ≤ s.color.length)
    (fun _ s f hs => by
      by_cases hf : f = "break"
      · subst hf
        exact ⟨s, _, frontField_break san c l x card s, hs⟩
      · show ∃ st1 e, frontField fl san c l x card s f = some (st1, e) ∧ 3 ≤ st1.color.length
        rw [frontField_of_ne hf]
        exact drawField_total hc san l x _ s f hs) c.Front.Fields 0 st hst
  refine ⟨s1, cardHead fl c l x y ++ e1, ?_, i1⟩
  unfold frontCard
  simp only [h1]

theorem backRows_total {fl : ℚ → ℚ}
    {c : Config} (hc : ColourOK c) (san : String → String) (l : Layout)
    (page : Page) (st : Style) (hst : 3 ≤ st.color.length) :
    ∃ st1 e, backRows fl san c l st page = some (st1, e) ∧ 3 ≤ st1.color.length := by
  unfold backRows
  refine loop_total (fun s => 3 ≤ s.color.length) ?_ page 0 st hst
  intro y st row hst
  unfold backRow
  refine loop_total (fun s => 3 ≤ s.color.length) ?_ row _ st hst
  intro x st card hst
  obtain ⟨s1, e1, h1, i1⟩ := @loop_total String id
    (fun _ s f => backField fl san c l x card s f) (fun s => 3 ≤ s.color.length)
    (fun _ s f hs => drawField_total hc san l x _ s f hs) c.Back.Fields 0 st hst
  refine ⟨s1, cardHead fl c l x y ++ e1, ?_, i1⟩
  unfold backCard
  simp only [h1]

/-- C10. Under a configuration whose two default colours have at least three
components and whose override colours are empty or have at least three
components, `render` never panics on `color[0]`, `color[1]`, `color[2]`: for
every document and all field lists it runs through both faces of every page
and returns its calls, and each face ends with a current colour of at least
three components. -/
theorem colour_indexing_safe (fl : ℚ → ℚ) (lib : TextLib) (c : Config) (l : Layout)
    (d : Document) (hc : ColourOK c) :
    (∃ evs, render fl lib c l d = some evs) ∧
      ∀ page ∈ d,
        (∃ sF eF, frontRows fl (sanitize lib c) c l (defaultStyle c.Front.Layout) page =
          some (sF, eF) ∧ 3 ≤ sF.color.length) ∧
        (∃ sB eB, backRows fl (sanitize lib c) c l (defaultStyle c.Back.Layout) page =
          some (sB, eB) ∧ 3 ≤ sB.color.length) := by
  constructor
  · induction d with
    | nil => exact ⟨[], rfl⟩
    | cons page rest ih =>
      obtain ⟨sF, eF, hF, -⟩ := frontRows_total hc (sanitize lib c) l page
        (defaultStyle c.Front.Layout) hc.1
      obtain ⟨sB, eB, hB, -⟩ := backRows_total hc (sanitize lib c) l page
        (defaultStyle c.Back.Layout) hc.2.1
      obtain ⟨e, he⟩ := ih
      exact ⟨_, render_cons_eq_some.2 ⟨sF, eF, sB, eB, e, hF, hB, he, rfl⟩⟩
  · intro page _
    exact ⟨frontRows_total hc (sanitize lib c) l page (defaultStyle c.Front.Layout) hc.1,
      backRows_total hc (sanitize lib c) l page (defaultStyle c.Back.Layout) hc.2.1⟩

/-- C10 on the sample configuration, whose colours have three components. -/
theorem colour_indexing_safe_witness :
    ColourOK sampleConfigA ∧
      ∃ evs, render binary64 basicLib sampleConfigA sampleLayout sampleDocument = some evs :=
  have hc : ColourOK sampleConfigA := by
    unfold ColourOK
    decide
  ⟨hc, (colour_indexing_safe binary64 basicLib sampleConfigA sampleLayout sampleDocument hc).1⟩

/-! ### The reserved field `break` -/

/-- C4 (the front face follows it, the back face does not). On a front face a
field named `break` leaves the current style as it is and issues only
`Ln(break height)` and the cursor reset.  On a back face there is no such
branch: with back fields `break`, `C` and a `break` entry of height 7, the back
sheet draws a text cell for `break` (the empty text) and sets both cells with
line height 7 instead of the back default 5. -/
theorem break_field_back_face :
    (∀ (fl : ℚ → ℚ) (san : String → String) (c : Config) (l : Layout) (x : ℚ) (card : Card)
        (st : Style),
      frontField fl san c l x card st "break" =
        some (st,
          [Event.ln (c.fieldLayout "break").Height, Event.setXYGetY (fl (x + c.Margin))])) ∧
    breakBackConfig.Back.Layout.Height = 5 ∧
    (render binary64 basicLib breakBackConfig sampleLayout [[[sampleCard "1"]]]).map
        (fun evs => (sheets evs).map (fun s => (texts s, lineHeights s))) =
      some [(["a 1"], [5]), (["", "c 1"], [7, 7])] := by
  refine ⟨fun fl san c l x card st => frontField_break san c l x card st, by decide, by decide⟩

/-! ### The size cascade -/

theorem frontCard_texts {fl : ℚ → ℚ} {san : String → String} {c : Config} {l : Layout} {y x : ℚ}
    {st st1 : Style} {card : Card} {e : List Event}
    (h : frontCard fl san c l y x st card = some (st1, e)) : texts e = frontTexts san c card := by
  obtain ⟨fe, hfe, rfl⟩ := frontCard_eq_some h
  rw [texts_append, cardHead_texts, List.nil_append,
    (frontFields_reads san c l x card _ _ _ _ _ hfe).2.1]
  rfl

theorem backCard_texts {fl : ℚ → ℚ} {san : String → String} {c : Config} {l : Layout} {y x : ℚ}
    {st st1 : Style} {card : Card} {e : List Event}
    (h : backCard fl san c l y x st card = some (st1, e)) : texts e = backTexts san c card := by
  obtain ⟨fe, hfe, rfl⟩ := backCard_eq_some h
  rw [texts_append, cardHead_texts, List.nil_append,
    (backFields_reads san c l x card _ _ _ _ _ hfe).2.1]
  rfl

theorem nextSize_of_pos {c : Config} {f : String} {s : ℚ} (t : ℚ)
    (hs : (c.fieldLayout f).Size = s) (hpos : 0 < s) : nextSize c t f = s := by
  unfold nextSize
  rw [if_pos (by rw [hs]; exact hpos), hs]

theorem nextSize_of_not_pos {c : Config} {f : String} (t : ℚ)
    (hs : ¬ (c.fieldLayout f).Size > 0) : nextSize c t f = t := by
  unfold nextSize
  rw [if_neg hs]

/-- C5, counterexample. With front fields `[A, B]` where `A` is the reserved
name `break`, whose entry has size 20, and `B` has no size override, the card
draws one text only, that of `B`, in the default size 10. -/
theorem size_cascade_counterexample :
    (breakSizeConfig.fieldLayout "break").Size = 20 ∧
    ¬ (breakSizeConfig.fieldLayout "B").Size > 0 ∧
    breakSizeConfig.Front.Fields = ["break", "B"] ∧
    (frontCard binary64 (sanitize basicLib breakSizeConfig) breakSizeConfig sampleLayout 0 0
        (defaultStyle breakSizeConfig.Front.Layout) (sampleCard "1")).map
      (fun r => (texts r.2, fontSizes r.2)) = some (["b & 1"], [10]) := by
  decide

/-- C5, amended. If field `A` has size 20 and field `B` has no positive size
override, and neither is the reserved name `break`, a card with field list
`[A, B]` draws both with size 20, from any current style, on the front and on
the back face.  In general the sizes set on one face of one page are the
cascade of the drawn fields, a positive size override staying in effect until
the next field with a positive size override: on the front face for the
fields other than `break`, on the back face when `break` is not among the back
fields. -/
theorem size_cascade (fl : ℚ → ℚ) (san : String → String) (c : Config) (l : Layout)
    (A B : String) (hA : (c.fieldLayout A).Size = 20) (hB : ¬ (c.fieldLayout B).Size > 0)
    (hAb : A ≠ "break") (hBb : B ≠ "break") :
    (∀ y x st card st1 e, c.Front.Fields = [A, B] →
      frontCard fl san c l y x st card = some (st1, e) →
      texts e = [san (card.front A), san (card.front B)] ∧ fontSizes e = [20, 20]) ∧
    (∀ y x st card st1 e, c.Back.Fields = [A, B] →
      backCard fl san c l y x st card = some (st1, e) →
      texts e = [san (card.back A), san (card.back B)] ∧ fontSizes e = [20, 20]) ∧
    (∀ st page st1 e, frontRows fl san c l st page = some (st1, e) →
      fontSizes e = cascadeSizes c st.size (frontDrawn c page)) ∧
    (∀ st page st1 e, "break" ∉ c.Back.Fields →
      backRows fl san c l st page = some (st1, e) →
      fontSizes e = cascadeSizes c st.size (backDrawn c page)) := by
  have h20 : ∀ t, nextSize c t A = 20 := fun t => nextSize_of_pos t hA (by norm_num)
  have hkeep : ∀ t, nextSize c t B = t := fun t => nextSize_of_not_pos t hB
  refine ⟨?_, ?_, ?_, ?_⟩
  · intro y x st card st1 e hf h
    constructor
    · rw [frontCard_texts h, frontTexts, hf]
      simp [hAb, hBb]
    · rw [(frontCard_reads h).2.2.1, hf]
      simp [hAb, hBb, cascadeSizes, h20, hkeep]
  · intro y x st card st1 e hf h
    constructor
    · rw [backCard_texts h, backTexts, hf]
      rfl
    · rw [(backCard_reads h).2.2.1, hf]
      simp [cascadeSizes, h20, hkeep]
  · intro st page st1 e h
    exact (frontRows_reads h).2.2.1
  · intro st page st1 e _ h
    exact (backRows_reads h).2.2.1

/-- C5, amended, on a card with fields `A`, `B` and `A` of size 20: both
texts are set in size 20, on the front face and on the back face. -/
theorem size_cascade_witness :
    (cascadeConfig.fieldLayout "A").Size = 20 ∧ ¬ (cascadeConfig.fieldLayout "B").Size > 0 ∧
    (∃ st1 e, frontCard binary64 (sanitize basicLib cascadeConfig) cascadeConfig sampleLayout
        0 0 (defaultStyle cascadeConfig.Front.Layout) (sampleCard "1") = some (st1, e) ∧
      texts e = ["a 1", "b & 1"] ∧ fontSizes e = [20, 20]) ∧
    (∃ st1 e, backCard binary64 (sanitize basicLib cascadeConfig) cascadeConfig sampleLayout
        0 0 (defaultStyle cascadeConfig.Back.Layout) (sampleCard "1") = some (st1, e) ∧
      fontSizes e = [20, 20]) := by
  have hA : (cascadeConfig.fieldLayout "A").Size = 20 := by decide
  have hB : ¬ (cascadeConfig.fieldLayout "B").Size > 0 := by decide
  have h1 : (frontCard binary64 (sanitize basicLib cascadeConfig) cascadeConfig sampleLayout
      0 0 (defaultStyle cascadeConfig.Front.Layout) (sampleCard "1")).isSome = true := by
    decide
  have h2 : (backCard binary64 (sanitize basicLib cascadeConfig) cascadeConfig sampleLayout
      0 0 (defaultStyle cascadeConfig.Back.Layout) (sampleCard "1")).isSome = true := by
    decide
  obtain ⟨r, hr⟩ := Option.isSome_iff_exists.1 h1
  obtain ⟨st1, e⟩ := r
  obtain ⟨r2, hr2⟩ := Option.isSome_iff_exists.1 h2
  obtain ⟨st2, e2⟩ := r2
  have hf := (size_cascade binary64 (sanitize basicLib cascadeConfig) cascadeConfig sampleLayout
    "A" "B" hA hB (by decide) (by decide)).1 0 0 _ (sampleCard "1") st1 e rfl hr
  have hb := (size_cascade binary64 (sanitize basicLib cascadeConfig) cascadeConfig sampleLayout
    "A" "B" hA hB (by decide) (by decide)).2.1 0 0 _ (sampleCard "1") st2 e2 rfl hr2
  refine ⟨hA, hB, ⟨st1, e, hr, ?_, hf.2⟩, ⟨st2, e2, hr2, hb.2⟩⟩
  rw [hf.1]
  decide

/-! ### The style is not reset between cards -/

theorem flatMap_flatten {α β : Type} (f : α → List β) (xss : List (List α)) :
    xss.flatten.flatMap f = xss.flatMap (fun xs => xs.flatMap f) := by
  induction xss with
  | nil => rfl
  | cons xs xss ih => rw [List.flatten_cons, List.flatMap_append, ih, List.flatMap_cons]

theorem cascadeSizes_carried (c : Config) (A B : String) (s : ℚ)
    (hA : ∀ t, nextSize c t A = s) (hB : ∀ t, nextSize c t B = t) (cards : List Card) :
    cascadeSizes c s (cards.flatMap (fun _ => [B, A])) = cards.flatMap (fun _ => [s, s]) := by
  induction cards with
  | nil => rfl
  | cons card cards ih =>
    rw [List.flatMap_cons, List.flatMap_cons, cascadeSizes_append, List.foldl_cons,
      List.foldl_cons, List.foldl_nil, hB, hA, ih]
    simp [cascadeSizes, hA, hB]

theorem cascadeSizes_first (c : Config) (A B : String) (dflt s : ℚ)
    (hA : ∀ t, nextSize c t A = s) (hB : ∀ t, nextSize c t B = t) (cards : List Card) :
    cascadeSizes c dflt (cards.flatMap (fun _ => [B, A])) = carriedSizes dflt s cards := by
  cases cards with
  | nil => rfl
  | cons card cards =>
    rw [List.flatMap_cons, cascadeSizes_append, List.foldl_cons, List.foldl_cons,
      List.foldl_nil, hB, hA, cascadeSizes_carried c A B s hA hB cards]
    simp [cascadeSizes, carriedSizes, hA, hB]

/-- C9, counterexample. With front fields `[B, A]` where `A` is the reserved
name `break`, whose entry has the only size override, 20, and the front
default size 10, a face of two cards sets `B` in size 10 on both cards. -/
theorem style_carried_counterexample :
    (breakCarryConfig.fieldLayout "break").Size = 20 ∧
    ¬ (breakCarryConfig.fieldLayout "B").Size > 0 ∧
    breakCarryConfig.Front.Fields = ["B", "break"] ∧
    breakCarryConfig.Front.Layout.Size = 10 ∧
    (render binary64 basicLib breakCarryConfig sampleLayout [[[sampleCard "1", sampleCard "2"]]]).map
      (fun evs => (sheets evs).map (fun s => (texts s, fontSizes s))) =
      some [(["b & 1", "b & 2"], [10, 10]), (["c 1", "c 2"], [12, 12])] := by
  decide

/-- C9, amended. With front fields `[B, A]`, both other than the reserved
`break`, where `A` has the positive size override `s` and `B` has none, the
front sheet of every page sets its fields, card after card in the order
`B, A`, in the sizes `carriedSizes`: `B` of the first card in the front
default size, `A` of the first card and both fields of every later card of
that face in size `s`. -/
theorem style_carried_between_cards (fl : ℚ → ℚ) (lib : TextLib) (c : Config) (l : Layout)
    (d : Document) (evs : List Event) (A B : String) (s : ℚ) (hA : A ≠ "break") (hB : B ≠ "break")
    (hf : c.Front.Fields = [B, A]) (hs : (c.fieldLayout A).Size = s) (hpos : 0 < s)
    (hBs : ¬ (c.fieldLayout B).Size > 0) (h : render fl lib c l d = some evs) :
    (pairUp (sheets evs)).map (fun fb => fontSizes fb.1) =
        d.map (fun page => carriedSizes c.Front.Layout.Size s page.flatten) ∧
      ∀ page, frontDrawn c page = page.flatten.flatMap (fun _ => [B, A]) := by
  have hdrawn : ∀ page, frontDrawn c page = page.flatten.flatMap (fun _ => [B, A]) := by
    intro page
    rw [flatMap_flatten, frontDrawn, hf]
    simp [hA, hB]
  refine ⟨?_, hdrawn⟩
  have hm := render_sheets_map d evs h fontSizes
    (fun page => carriedSizes c.Front.Layout.Size s page.flatten)
    (fun page => cascadeSizes c c.Back.Layout.Size (backDrawn c page))
    (fun page st st1 e hF hst => by
      rw [(frontRows_reads hF).2.2.1, hst, hdrawn]
      exact cascadeSizes_first c A B _ s (fun t => nextSize_of_pos t hs hpos)
        (fun t => nextSize_of_not_pos t hBs) page.flatten)
    (fun page st st1 e hB1 hst => by
      rw [(backRows_reads hB1).2.2.1, hst]
      rfl)
  have hp := congrArg pairUp hm
  rw [pairUp_map, pairUp_flatMap] at hp
  have := congrArg (List.map Prod.fst) hp
  simpa [List.map_map, Function.comp_def] using this

/-- C9, amended, on a page of two rows and four cards: `B` of card 1 in size
10, everything after it in size 20. -/
theorem style_carried_between_cards_witness :
    ∃ evs, render binary64 basicLib carryConfig sampleLayout sampleDocument = some evs ∧
      (pairUp (sheets evs)).map (fun fb => fontSizes fb.1) =
        [[10, 20, 20, 20, 20, 20, 20, 20], [10, 20]] := by
  have h1 : (render binary64 basicLib carryConfig sampleLayout sampleDocument).isSome = true := by
    decide
  obtain ⟨e1, he1⟩ := Option.isSome_iff_exists.1 h1
  refine ⟨e1, he1, ?_⟩
  rw [(style_carried_between_cards binary64 basicLib carryConfig sampleLayout sampleDocument e1 "A" "B"
    20 (by decide) (by decide) rfl (by decide) (by norm_num) (by decide) he1).1]
  decide

/-! ### Where the style is reset -/

/-- C6, counterexample. Two pages of one card, front fields `[B, A]` with `A`
of size 20 and the front default 10: the front face of page 1 ends with the
current size 20, yet `B`, the first field of the front face of page 2, is set
in size 10, the default, like `B` on page 1. -/
theorem style_reset_counterexample :
    (frontRows binary64 (sanitize basicLib carryConfig) carryConfig sampleLayout
        (defaultStyle carryConfig.Front.Layout) [[sampleCard "1"]]).map (fun r => r.1.size) =
      some 20 ∧
    (render binary64 basicLib carryConfig sampleLayout twoPages).map
      (fun evs => (sheets evs).map (fun s => (texts s, fontSizes s))) =
      some [(["b & 1", "a 1"], [10, 20]), (["c 1"], [12]),
        (["b & 2", "a 2"], [10, 20]), (["c 2"], [12])] := by
  decide

/-- C6, amended. In `render` the current style is set to the default of the
face at the start of every face of every page: whatever pages come before and
after, the calls for a page are `AddPage`, its rows drawn from the front
default, `AddPage`, its rows drawn from the back default.  The style is thus
carried across the rows and cards of one face of one page only, never to the
next page and never to the other face. -/
theorem style_reset_each_face (fl : ℚ → ℚ) (lib : TextLib) (c : Config) (l : Layout)
    (before : Document) (page : Page) (after : Document) (evs : List Event)
    (h : render fl lib c l (before ++ page :: after) = some evs) :
    ∃ e1 sF eF sB eB e2,
      render fl lib c l before = some e1 ∧
      frontRows fl (sanitize lib c) c l (defaultStyle c.Front.Layout) page = some (sF, eF) ∧
      backRows fl (sanitize lib c) c l (defaultStyle c.Back.Layout) page = some (sB, eB) ∧
      render fl lib c l after = some e2 ∧
      evs = e1 ++ Event.addPage :: (eF ++ Event.addPage :: (eB ++ e2)) := by
  induction before generalizing evs with
  | nil =>
    obtain ⟨sF, eF, sB, eB, e, hF, hB, hR, rfl⟩ := render_cons_eq_some.1 h
    exact ⟨[], sF, eF, sB, eB, e, rfl, hF, hB, hR, rfl⟩
  | cons p0 before ih =>
    rw [List.cons_append] at h
    obtain ⟨sF0, eF0, sB0, eB0, e, hF0, hB0, hR, rfl⟩ := render_cons_eq_some.1 h
    obtain ⟨e1, sF, eF, sB, eB, e2, hpre, hF, hB, hpost, rfl⟩ := ih e hR
    refine ⟨_, sF, eF, sB, eB, e2,
      render_cons_eq_some.2 ⟨sF0, eF0, sB0, eB0, e1, hF0, hB0, hpre, rfl⟩, hF, hB, hpost, ?_⟩
    simp

/-- C6, amended, on the second of two pages. -/
theorem style_reset_each_face_witness :
    ∃ evs, render binary64 basicLib carryConfig sampleLayout ([[[sampleCard "1"]]] ++
        [[sampleCard "2"]] :: []) = some evs ∧
      ∃ e1 sF eF sB eB e2,
        render binary64 basicLib carryConfig sampleLayout [[[sampleCard "1"]]] = some e1 ∧
        frontRows binary64 (sanitize basicLib carryConfig) carryConfig sampleLayout
          (defaultStyle carryConfig.Front.Layout) [[sampleCard "2"]] = some (sF, eF) ∧
        backRows binary64 (sanitize basicLib carryConfig) carryConfig sampleLayout
          (defaultStyle carryConfig.Back.Layout) [[sampleCard "2"]] = some (sB, eB) ∧
        render binary64 basicLib carryConfig sampleLayout [] = some e2 ∧
        evs = e1 ++ Event.addPage :: (eF ++ Event.addPage :: (eB ++ e2)) := by
  have h1 : (render binary64 basicLib carryConfig sampleLayout ([[[sampleCard "1"]]] ++
      [[sampleCard "2"]] :: [])).isSome = true := by
    decide
  obtain ⟨e1, he1⟩ := Option.isSome_iff_exists.1 h1
  exact ⟨e1, he1, style_reset_each_face binary64 basicLib carryConfig sampleLayout _ _ _ e1 he1⟩

/-! ### Repeating the text pipeline -/

/-- C8, counterexample. With both flags off the pipeline is entity decoding
alone: `&amp;lt;` becomes `&lt;`, and running the pipeline on that gives `<`.
With both flags on, decoding can also hand new work to the earlier stages:
`&lt;b&gt;x` becomes `<b>x`, which a second run strips to `x`, and
`a&#32;&#32;b` becomes `a`, two blanks, `b`, which a second run collapses. -/
theorem sanitize_twice_counterexample :
    (sanitize basicLib plainConfig "&amp;lt;" = "&lt;" ∧
      sanitize basicLib plainConfig (sanitize basicLib plainConfig "&amp;lt;") = "<" ∧
      sanitize basicLib plainConfig (sanitize basicLib plainConfig "&amp;lt;") ≠
        sanitize basicLib plainConfig "&amp;lt;") ∧
    (sanitize basicLib sampleConfigA "&lt;b&gt;x" = "<b>x" ∧
      sanitize basicLib sampleConfigA (sanitize basicLib sampleConfigA "&lt;b&gt;x") = "x") ∧
    (sanitize basicLib sampleConfigA "a&#32;&#32;b" = "a  b" ∧
      sanitize basicLib sampleConfigA (sanitize basicLib sampleConfigA "a&#32;&#32;b") =
        "a b") := by
  decide

/-- C8, amended. The output of the pipeline is `decode (collapse (strip t))`,
and running the pipeline on this output `s` gives `s` again whenever no stage
has anything left to do on `s`: decoding leaves `s` unchanged and so do, when
enabled, tag stripping and whitespace collapsing.  The first run may decode
freely; only outputs that are still decodable, or in which decoding produced
tags or runs of whitespace, are excluded. -/
theorem sanitize_idempotent_on_settled (lib : TextLib) (c : Config) (t : String)
    (hS : c.StripHTML = true → lib.stripTags (sanitize lib c t) = sanitize lib c t)
    (hC : c.TrimSpace = true → spaceReplaceAll (sanitize lib c t) = sanitize lib c t)
    (hU : lib.unescapeString (sanitize lib c t) = sanitize lib c t) :
    sanitize lib c t = lib.unescapeString (preDecode lib c t) ∧
      sanitize lib c (sanitize lib c t) = sanitize lib c t := by
  refine ⟨rfl, ?_⟩
  have hstrip : (if c.StripHTML then lib.stripTags (sanitize lib c t) else sanitize lib c t) =
      sanitize lib c t := by
    by_cases hs : c.StripHTML = true
    · rw [if_pos hs, hS hs]
    · rw [if_neg hs]
  have hcoll : (if c.TrimSpace then spaceReplaceAll (sanitize lib c t) else sanitize lib c t) =
      sanitize lib c t := by
    by_cases ht : c.TrimSpace = true
    · rw [if_pos ht, hC ht]
    · rw [if_neg ht]
  show lib.unescapeString (if c.TrimSpace then spaceReplaceAll
      (if c.StripHTML then lib.stripTags (sanitize lib c t) else sanitize lib c t)
    else (if c.StripHTML then lib.stripTags (sanitize lib c t) else sanitize lib c t)) = _
  rw [hstrip, hcoll, hU]

/-- C8, amended, on a text with tags, a run of blanks and an entity that the
first run decodes: the output `a & b` is left alone by every stage. -/
theorem sanitize_idempotent_on_settled_witness :
    sanitize basicLib sampleConfigA "<b>a</b> \t &amp; b" = "a & b" ∧
    basicLib.stripTags (sanitize basicLib sampleConfigA "<b>a</b> \t &amp; b") =
      sanitize basicLib sampleConfigA "<b>a</b> \t &amp; b" ∧
    spaceReplaceAll (sanitize basicLib sampleConfigA "<b>a</b> \t &amp; b") =
      sanitize basicLib sampleConfigA "<b>a</b> \t &amp; b" ∧
    basicLib.unescapeString (sanitize basicLib sampleConfigA "<b>a</b> \t &amp; b") =
      sanitize basicLib sampleConfigA "<b>a</b> \t &amp; b" ∧
    sanitize basicLib sampleConfigA (sanitize basicLib sampleConfigA "<b>a</b> \t &amp; b") =
      sanitize basicLib sampleConfigA "<b>a</b> \t &amp; b" :=
  ⟨by decide, by decide, by decide, by decide,
    (sanitize_idempotent_on_settled basicLib sampleConfigA "<b>a</b> \t &amp; b"
      (fun _ => by decide) (fun _ => by decide) (by decide)).2⟩

end AnkiPDF
